import Mathlib

/-!
# Verification development for the `sdlc` changelog package

A shallow embedding of `changelog.go` (commit subject parser and markdown
aggregator) and of `prereleaser.go` (latest tag, change log and schema script
of a repository).

Go strings are modelled as sequences of runes (`List Char` inside the matcher,
`String` at the interface); subjects are assumed to be valid UTF-8, so the
rune view and the byte view agree on every delimiter the code slices at.
-/

namespace Sdlc

/-! ## Go standard library pieces used by `changelog.go` -/

/-- Go `unicode.IsSpace`: the Latin-1 spaces `\t \n \v \f \r`, space, U+0085,
U+00A0 and the code points with the Unicode White_Space property. -/
def isSpace (c : Char) : Bool :=
  let n := c.toNat
  n == 0x09 || n == 0x0A || n == 0x0B || n == 0x0C || n == 0x0D || n == 0x20 ||
  n == 0x85 || n == 0xA0 || n == 0x1680 || (0x2000 ≤ n && n ≤ 0x200A) ||
  n == 0x2028 || n == 0x2029 || n == 0x202F || n == 0x205F || n == 0x3000

/-- Go `strings.TrimSpace` on runes: leading and trailing white space removed. -/
def trimSpaceRunes (s : List Char) : List Char :=
  (s.dropWhile isSpace).rdropWhile isSpace

/-- Go `strings.TrimSpace`. -/
def TrimSpace (s : String) : String := ⟨trimSpaceRunes s.data⟩

/-- The lower-case entries of Go `unicode.CaseRanges` above U+007F (Unicode
14.0/15.0, simple case mappings): `(lo, hi, stride, target)` says that the
code points `lo`, `lo + stride`, ..., `hi` have the lower case `target`,
`target + stride`, ... -/
def lowerRanges : List (Nat × Nat × Nat × Nat) :=
  [(192, 214, 1, 224), (216, 222, 1, 248), (256, 302, 2, 257), (304, 304, 1, 105),
   (306, 310, 2, 307), (313, 327, 2, 314), (330, 374, 2, 331), (376, 376, 1, 255),
   (377, 381, 2, 378), (385, 385, 1, 595), (386, 388, 2, 387), (390, 390, 1, 596),
   (391, 391, 1, 392), (393, 394, 1, 598), (395, 395, 1, 396), (398, 398, 1, 477),
   (399, 399, 1, 601), (400, 400, 1, 603), (401, 401, 1, 402), (403, 403, 1, 608),
   (404, 404, 1, 611), (406, 406, 1, 617), (407, 407, 1, 616), (408, 408, 1, 409),
   (412, 412, 1, 623), (413, 413, 1, 626), (415, 415, 1, 629), (416, 420, 2, 417),
   (422, 422, 1, 640), (423, 423, 1, 424), (425, 425, 1, 643), (428, 428, 1, 429),
   (430, 430, 1, 648), (431, 431, 1, 432), (433, 434, 1, 650), (435, 437, 2, 436),
   (439, 439, 1, 658), (440, 440, 1, 441), (444, 444, 1, 445), (452, 452, 1, 454),
   (453, 453, 1, 454), (455, 455, 1, 457), (456, 456, 1, 457), (458, 458, 1, 460),
   (459, 475, 2, 460), (478, 494, 2, 479), (497, 497, 1, 499), (498, 500, 2, 499),
   (502, 502, 1, 405), (503, 503, 1, 447), (504, 542, 2, 505), (544, 544, 1, 414),
   (546, 562, 2, 547), (570, 570, 1, 11365), (571, 571, 1, 572), (573, 573, 1, 410),
   (574, 574, 1, 11366), (577, 577, 1, 578), (579, 579, 1, 384), (580, 580, 1, 649),
   (581, 581, 1, 652), (582, 590, 2, 583), (880, 882, 2, 881), (886, 886, 1, 887),
   (895, 895, 1, 1011), (902, 902, 1, 940), (904, 906, 1, 941), (908, 908, 1, 972),
   (910, 911, 1, 973), (913, 929, 1, 945), (931, 939, 1, 963), (975, 975, 1, 983),
   (984, 1006, 2, 985), (1012, 1012, 1, 952), (1015, 1015, 1, 1016), (1017, 1017, 1, 1010),
   (1018, 1018, 1, 1019), (1021, 1023, 1, 891), (1024, 1039, 1, 1104), (1040, 1071, 1, 1072),
   (1120, 1152, 2, 1121), (1162, 1214, 2, 1163), (1216, 1216, 1, 1231), (1217, 1229, 2, 1218),
   (1232, 1326, 2, 1233), (1329, 1366, 1, 1377), (4256, 4293, 1, 11520), (4295, 4295, 1, 11559),
   (4301, 4301, 1, 11565), (5024, 5103, 1, 43888), (5104, 5109, 1, 5112), (7312, 7354, 1, 4304),
   (7357, 7359, 1, 4349), (7680, 7828, 2, 7681), (7838, 7838, 1, 223), (7840, 7934, 2, 7841),
   (7944, 7951, 1, 7936), (7960, 7965, 1, 7952), (7976, 7983, 1, 7968), (7992, 7999, 1, 7984),
   (8008, 8013, 1, 8000), (8025, 8031, 2, 8017), (8040, 8047, 1, 8032), (8072, 8079, 1, 8064),
   (8088, 8095, 1, 8080), (8104, 8111, 1, 8096), (8120, 8121, 1, 8112), (8122, 8123, 1, 8048),
   (8124, 8124, 1, 8115), (8136, 8139, 1, 8050), (8140, 8140, 1, 8131), (8152, 8153, 1, 8144),
   (8154, 8155, 1, 8054), (8168, 8169, 1, 8160), (8170, 8171, 1, 8058), (8172, 8172, 1, 8165),
   (8184, 8185, 1, 8056), (8186, 8187, 1, 8060), (8188, 8188, 1, 8179), (8486, 8486, 1, 969),
   (8490, 8490, 1, 107), (8491, 8491, 1, 229), (8498, 8498, 1, 8526), (8544, 8559, 1, 8560),
   (8579, 8579, 1, 8580), (9398, 9423, 1, 9424), (11264, 11311, 1, 11312),
   (11360, 11360, 1, 11361), (11362, 11362, 1, 619), (11363, 11363, 1, 7549),
   (11364, 11364, 1, 637), (11367, 11371, 2, 11368), (11373, 11373, 1, 593),
   (11374, 11374, 1, 625), (11375, 11375, 1, 592), (11376, 11376, 1, 594),
   (11378, 11378, 1, 11379), (11381, 11381, 1, 11382), (11390, 11391, 1, 575),
   (11392, 11490, 2, 11393), (11499, 11501, 2, 11500), (11506, 11506, 1, 11507),
   (42560, 42604, 2, 42561), (42624, 42650, 2, 42625), (42786, 42798, 2, 42787),
   (42802, 42862, 2, 42803), (42873, 42875, 2, 42874), (42877, 42877, 1, 7545),
   (42878, 42886, 2, 42879), (42891, 42891, 1, 42892), (42893, 42893, 1, 613),
   (42896, 42898, 2, 42897), (42902, 42920, 2, 42903), (42922, 42922, 1, 614),
   (42923, 42923, 1, 604), (42924, 42924, 1, 609), (42925, 42925, 1, 620),
   (42926, 42926, 1, 618), (42928, 42928, 1, 670), (42929, 42929, 1, 647),
   (42930, 42930, 1, 669), (42931, 42931, 1, 43859), (42932, 42946, 2, 42933),
   (42948, 42948, 1, 42900), (42949, 42949, 1, 642), (42950, 42950, 1, 7566),
   (42951, 42953, 2, 42952), (42960, 42960, 1, 42961), (42966, 42968, 2, 42967),
   (42997, 42997, 1, 42998), (65313, 65338, 1, 65345), (66560, 66599, 1, 66600),
   (66736, 66771, 1, 66776), (66928, 66938, 1, 66967), (66940, 66954, 1, 66979),
   (66956, 66962, 1, 66995), (66964, 66965, 1, 67003), (68736, 68786, 1, 68800),
   (71840, 71871, 1, 71872), (93760, 93791, 1, 93792), (125184, 125217, 1, 125218)]

/-- Whether the code point `n` is one of those listed by an entry of the table. -/
def inRange (r : Nat × Nat × Nat × Nat) (n : Nat) : Bool :=
  decide (r.1 ≤ n) && decide (n ≤ r.2.1) && decide ((n - r.1) % r.2.2.1 = 0)

/-- Go `unicode.ToLower` on code points: the ASCII rule for `r <= MaxASCII`,
the table for the rest. -/
def toLowerCode (n : Nat) : Nat :=
  if n < 128 then
    if 65 ≤ n ∧ n ≤ 90 then n + 32 else n
  else
    match lowerRanges.find? (fun r => inRange r n) with
    | some r => r.2.2.2 + (n - r.1)
    | none => n

/-- Go `unicode.ToLower`. -/
def unicodeToLower (c : Char) : Char := Char.ofNat (toLowerCode c.toNat)

/-- Go `strings.ToLower` on runes: `unicode.ToLower` applied to every rune. -/
def toLowerRunes (s : List Char) : List Char := s.map unicodeToLower

/-- Go `strings.ToLower`. -/
def ToLower (s : String) : String := ⟨toLowerRunes s.data⟩

/-- Go `len(s)`: the length of a string in bytes of its UTF-8 encoding. -/
def byteLen (s : List Char) : Nat := (s.map Char.utf8Size).sum

/-- Go `s[1 : len(s)-1]` for a string whose first and last bytes are one-byte
runes (the delimiters captured by the pattern): first and last rune dropped. -/
def sliceInner (s : List Char) : List Char := (s.drop 1).dropLast

/-! ## The regular expression

`regexp` matching is leftmost-first: among the matches starting at the
leftmost possible position the one a backtracking search finds first is
returned. The constructs below are exactly those that occur in
`conventionalCommitRegexStr`. -/

/-- The named capture groups of `conventionalCommitRegexStr`, in order. -/
inductive Group where
  | type | scope | breaking | separator | ticket | message
  deriving DecidableEq, Repr

/-- The submatches of one match; a group that did not take part is `""`. -/
structure Caps where
  type : List Char := []
  scope : List Char := []
  breaking : List Char := []
  separator : List Char := []
  ticket : List Char := []
  message : List Char := []
  deriving DecidableEq, Repr

/-- Record the text of one group. -/
def Caps.set (c : Caps) (g : Group) (v : List Char) : Caps :=
  match g with
  | .type => { c with type := v }
  | .scope => { c with scope := v }
  | .breaking => { c with breaking := v }
  | .separator => { c with separator := v }
  | .ticket => { c with ticket := v }
  | .message => { c with message := v }

/-- Regular expression syntax (the fragment used by the pattern). -/
inductive Re where
  /-- `^` : beginning of text -/
  | bot : Re
  /-- `$` : end of text (no `m` flag) -/
  | eot : Re
  /-- literal text -/
  | lit : List Char → Re
  /-- one rune of a class -/
  | cls : (Char → Bool) → Re
  /-- `x*` greedy, `x` a class -/
  | star : (Char → Bool) → Re
  /-- `x+` greedy, `x` a class -/
  | plus : (Char → Bool) → Re
  /-- concatenation -/
  | seq : Re → Re → Re
  /-- `a|b`, preferring `a` -/
  | alt : Re → Re → Re
  /-- `a?`, preferring one occurrence -/
  | opt : Re → Re
  /-- `(?P<g>a)` -/
  | cap : Group → Re → Re

/-- Strip a literal from the front of the input. -/
def stripLit : List Char → List Char → Option (List Char)
  | [], s => some s
  | _ :: _, [] => none
  | a :: l, b :: s => if a = b then stripLit l s else none

/-- Greedy repetition of a class: take one more rune when possible and try the
continuation on the longest run first, then on shorter ones. -/
def starLoop (p : Char → Bool) (k : List Char → Option Caps) : List Char → Option Caps
  | [] => k []
  | c :: t =>
    if p c then (starLoop p k t).orElse (fun _ => k (c :: t)) else k (c :: t)

/-- Backtracking matcher in continuation-passing style. `whole` is the text
being searched, `s` the unread rest, `c` the groups recorded so far and `k`
what remains to be matched; the first success in priority order wins. -/
def Re.run (whole : List Char) : Re → List Char → Caps →
    (List Char → Caps → Option Caps) → Option Caps
  | .bot, s, c, k => if s.length = whole.length then k s c else none
  | .eot, s, c, k => if s = [] then k s c else none
  | .lit l, s, c, k =>
    match stripLit l s with
    | some r => k r c
    | none => none
  | .cls p, s, c, k =>
    match s with
    | a :: r => if p a then k r c else none
    | [] => none
  | .star p, s, c, k => starLoop p (fun r => k r c) s
  | .plus p, s, c, k =>
    match s with
    | a :: r => if p a then starLoop p (fun r => k r c) r else none
    | [] => none
  | .seq a b, s, c, k => a.run whole s c (fun r c1 => b.run whole r c1 k)
  | .alt a b, s, c, k => (a.run whole s c k).orElse (fun _ => b.run whole s c k)
  | .opt a, s, c, k => (a.run whole s c k).orElse (fun _ => k s c)
  | .cap g a, s, c, k =>
    a.run whole s c (fun r c1 => k r (c1.set g (s.take (s.length - r.length))))

/-- Try a match starting at every position of the text, leftmost first. -/
def findFrom (re : Re) (whole : List Char) : List Char → Option Caps
  | [] => re.run whole [] {} (fun _ c => some c)
  | a :: t =>
    (re.run whole (a :: t) {} (fun _ c => some c)).orElse (fun _ => findFrom re whole t)

/-- Go `Regexp.FindStringSubmatch`, giving the named groups; `none` is the
empty result slice (no match). -/
def FindStringSubmatch (re : Re) (s : List Char) : Option Caps := findFrom re s s

/-- The alternation `a|b|...` of literals, in order. -/
def altLits : List String → Re
  | [] => .lit []
  | [a] => .lit a.data
  | a :: b :: l => .alt (.lit a.data) (altLits (b :: l))

/-- The ten type words, in the order of the pattern. -/
def typeWords : List String :=
  ["feature", "feat", "fix", "docs", "style", "refactor", "test", "chore", "enhance", "config"]

/-- Class `[^()\r\n]`. -/
def scopeChar (c : Char) : Bool := !(c == '(' || c == ')' || c == '\r' || c == '\n')

/-- Class of the single space in ` *`. -/
def blank (c : Char) : Bool := c == ' '

/-- Class `[A-Z]`. -/
def upperAZ (c : Char) : Bool := 65 ≤ c.toNat && c.toNat ≤ 90

/-- Class `[0-9]`. -/
def digit09 (c : Char) : Bool := 48 ≤ c.toNat && c.toNat ≤ 57

/-- Class `.` without the `s` flag: any rune but line feed. -/
def anyButLF (c : Char) : Bool := !(c == '\n')

/-- Sub-pattern `(?P<scope>(?:\([^()\r\n]*\)|\())`. -/
def scopeRe : Re :=
  .cap .scope (.alt (.seq (.lit ['(']) (.seq (.star scopeChar) (.lit [')']))) (.lit ['(']))

/-- Sub-pattern `(?P<ticket>\[[A-Z][A-Z]+\-[0-9]+\])`. -/
def ticketRe : Re :=
  .cap .ticket (.seq (.lit ['[']) (.seq (.cls upperAZ) (.seq (.plus upperAZ)
    (.seq (.lit ['-']) (.seq (.plus digit09) (.lit [']']))))))

/-- Sub-pattern `(?P<message>.+$)`. -/
def messageRe : Re := .cap .message (.seq (.plus anyButLF) .eot)

/-- The pattern `conventionalCommitRegexStr`:
`^(?P<type>feature|feat|fix|docs|style|refactor|test|chore|enhance|config)`
`(?P<scope>(?:\([^()\r\n]*\)|\())?(?P<breaking>!)?(?P<separator>:)? *`
`(?P<ticket>\[[A-Z][A-Z]+\-[0-9]+\])? *(?P<message>.+$)?` -/
def conventionalCommitRegex : Re :=
  .seq .bot (.seq (.cap .type (altLits typeWords)) (.seq (.opt scopeRe)
    (.seq (.opt (.cap .breaking (.lit ['!']))) (.seq (.opt (.cap .separator (.lit [':'])))
      (.seq (.star blank) (.seq (.opt ticketRe) (.seq (.star blank) (.opt messageRe))))))))

/-! ## `changelog.go` -/

/-- The `gitlog.Hash` of a commit. -/
structure GitHash where
  Long : String
  Short : String
  deriving DecidableEq, Repr

/-- The struct `Changelog` (`Type_` is the field `Type`). -/
structure Changelog where
  Type_ : String
  Scope : String
  Message : String
  Breaking : Bool
  JiraTicket : String
  Hash : Option GitHash
  deriving DecidableEq, Repr

/-- The function `ChangelogFromCommitMessage`; `none` is the `nil` result. -/
def ChangelogFromCommitMessage (msg : String) : Option Changelog :=
  let msg := TrimSpace msg
  match FindStringSubmatch conventionalCommitRegex msg.data with
  | none => none
  | some result =>
    let message := result.message
    if message = [] then none
    else
      -- remove () from scope
      let scope := result.scope
      let scope := if byteLen scope > 2 then sliceInner scope else scope
      -- remove [] from ticket
      let ticket := result.ticket
      let ticket := if byteLen ticket > 2 then sliceInner ticket else ticket
      some {
        Type_ := ToLower ⟨result.type⟩
        Scope := ToLower ⟨scope⟩
        Message := ⟨result.message⟩
        Breaking := result.breaking == ['!']
        JiraTicket := ⟨ticket⟩
        Hash := none }

/-- The constant `CommitTypeFeat`. -/
def CommitTypeFeat : String := "feat"

/-- The constant `CommitTypeFeature`. -/
def CommitTypeFeature : String := "feature"

/-- The constant `CommitTypeFix`. -/
def CommitTypeFix : String := "fix"

/-- The constant `CommitTypeOther`. -/
def CommitTypeOther : String := "other"

/-- The struct `ChangelogListOptions`. -/
structure ChangelogListOptions where
  Scope : String
  JiraURL : String
  deriving DecidableEq, Repr

/-- The struct `ChangelogList`; `opt` is a pointer and may be nil. -/
structure ChangelogList where
  changelogs : List Changelog
  opt : Option ChangelogListOptions
  deriving DecidableEq, Repr

/-- The function `NewChangelogList`. -/
def NewChangelogList (opt : Option ChangelogListOptions) : ChangelogList :=
  { changelogs := [], opt := opt }

/-- The method `Add`. -/
def ChangelogList.Add (c : ChangelogList) (changelog : Changelog) : ChangelogList :=
  { c with changelogs := c.changelogs ++ [changelog] }

/-- A Go `map[string]V`: the keys present with their values, each key once.
The order of the list is internal; `range` may visit the keys in any order. -/
abbrev GoMap (ν : Type) := List (String × ν)

/-- The expression `m[k]` with its presence flag. -/
def GoMap.get? {ν : Type} : GoMap ν → String → Option ν
  | [], _ => none
  | (k1, v) :: m, k => if k1 = k then some v else GoMap.get? m k

/-- The statement `m[k] = v`. -/
def GoMap.set {ν : Type} : GoMap ν → String → ν → GoMap ν
  | [], k, v => [(k, v)]
  | (k1, v1) :: m, k, v => if k1 = k then (k, v) :: m else (k1, v1) :: GoMap.set m k v

/-- The keys present in a map. -/
def GoMap.keys {ν : Type} (m : GoMap ν) : List String := m.map Prod.fst

/-- A run-time panic of the Go code, or the exhaustion of the fuel that bounds
the row loop in this model. -/
inductive Fault where
  | nilDereference | indexOutOfRange | outOfFuel
  deriving DecidableEq, Repr

deriving instance DecidableEq for Except

/-- The map `groupByScopeAndCommitType`. -/
abbrev Groups := GoMap (GoMap (List Changelog))

/-- The `switch commitType` of `FormatAsMarkdown`. -/
def reducedCommitType (commitType : String) : String :=
  if commitType = CommitTypeFeature then commitType
  else if commitType = CommitTypeFeat then CommitTypeFeature
  else if commitType = CommitTypeFix then commitType
  else CommitTypeOther

/-- One iteration of the grouping loop of `FormatAsMarkdown`. -/
def groupStep (c : ChangelogList) (g : Groups) (changelog : Changelog) : Except Fault Groups :=
  match c.opt with
  | none => .error .nilDereference
  | some opt =>
    if opt.Scope ≠ "" ∧ changelog.Scope ≠ opt.Scope then
      -- is scope is set, only get changelogs from that scope
      .ok g
    else
      let g := if (g.get? changelog.Scope).isNone then g.set changelog.Scope [] else g
      let commitType := reducedCommitType changelog.Type_
      let inner := (g.get? changelog.Scope).getD []
      .ok (g.set changelog.Scope
        (inner.set commitType ((inner.get? commitType).getD [] ++ [changelog])))

/-- The grouping loop of `FormatAsMarkdown` over `c.changelogs`. -/
def groupLoop (c : ChangelogList) : Groups → List Changelog → Except Fault Groups
  | g, [] => .ok g
  | g, changelog :: rest =>
    match groupStep c g changelog with
    | .error e => .error e
    | .ok g1 => groupLoop c g1 rest

/-- The method `writeChangelogRow`; the builder is passed and returned. -/
def writeChangelogRow (c : ChangelogList) (markdown : String) (changelog : Changelog)
    (done prefixType : Bool) : Except Fault String :=
  let markdown := markdown ++ "|"
  if done then .ok (markdown ++ " ")
  else
    let commitMessage := " " ++ changelog.Message ++ " "
    let commitMessage :=
      if prefixType then changelog.Type_ ++ ": " ++ changelog.Message ++ " " else commitMessage
    if changelog.JiraTicket ≠ "" then
      let jiraTicket := changelog.JiraTicket
      match c.opt with
      | none => .error .nilDereference
      | some opt =>
        .ok (markdown ++ (commitMessage ++
          ("([" ++ jiraTicket ++ "](" ++ opt.JiraURL ++ "/browse/" ++ jiraTicket ++ ")) ")))
    else .ok (markdown ++ commitMessage)

/-- One cell of a row: written when the bucket is not done, `bucket[row]`
panicking past the end. -/
def writeCell (c : ChangelogList) (markdown : String) (bucket : List Changelog) (row : Nat)
    (done prefixType : Bool) : Except Fault String :=
  if !done then
    match bucket[row]? with
    | none => .error .indexOutOfRange
    | some changelog => writeChangelogRow c markdown changelog done prefixType
  else .ok markdown

/-- The loop `for row := 0; ; row++` of `FormatAsMarkdown`, bounded by fuel. -/
def rowLoop (c : ChangelogList) (features fixes otherChanges : List Changelog) :
    Nat → Nat → Bool → Bool → Bool → String → Except Fault String
  | 0, _, _, _, _, _ => .error .outOfFuel
  | fuel + 1, row, featDone, fixDone, othersDone, markdown =>
    let featDone := if row = features.length then true else featDone
    let fixDone := if row = fixes.length then true else fixDone
    let othersDone := if row = otherChanges.length then true else othersDone
    if featDone && fixDone && othersDone then .ok markdown
    else
      match writeCell c markdown features row featDone false with
      | .error e => .error e
      | .ok m1 =>
        match writeCell c m1 fixes row fixDone false with
        | .error e => .error e
        | .ok m2 =>
          match writeCell c m2 otherChanges row othersDone true with
          | .error e => .error e
          | .ok m3 =>
            rowLoop c features fixes otherChanges fuel (row + 1) featDone fixDone othersDone
              (m3 ++ "|\n")

/-- The loop over the scopes of `FormatAsMarkdown`, visiting them in `order`. -/
def scopeLoop (c : ChangelogList) (g : Groups) : List String → String → Except Fault String
  | [], markdown => .ok markdown
  | scope :: rest, markdown =>
    let groupByCommitType := (g.get? scope).getD []
    let markdown := markdown ++ ("### " ++ scope)
    -- generate commit type table
    let markdown := markdown ++
      "\n\n| **New Features** | **Bug Fixes** | **Others** |\n| --- | --- | --- |\n"
    let features := (groupByCommitType.get? CommitTypeFeature).getD []
    let fixes := (groupByCommitType.get? CommitTypeFix).getD []
    let otherChanges := (groupByCommitType.get? CommitTypeOther).getD []
    match rowLoop c features fixes otherChanges
        (features.length + fixes.length + otherChanges.length + 1) 0 false false false
        markdown with
    | .error e => .error e
    | .ok m1 => scopeLoop c g rest (m1 ++ "\n\n")

/-- The map built by the first loop of `FormatAsMarkdown`. -/
def groupByScopeAndCommitType (c : ChangelogList) : Except Fault Groups :=
  groupLoop c [] c.changelogs

/-- An order in which `range` may visit the scopes of the list: any
arrangement of the keys of the map, each key once. -/
def RangeOrder (c : ChangelogList) (order : List String) : Prop :=
  match groupByScopeAndCommitType c with
  | .ok g => order.Perm g.keys
  | .error _ => True

instance (c : ChangelogList) (order : List String) : Decidable (RangeOrder c order) := by
  unfold RangeOrder
  split <;> infer_instance

/-- The method `FormatAsMarkdown`. `order` is the order in which the Go
runtime enumerates the keys of `groupByScopeAndCommitType`, which the language
leaves unspecified. -/
def ChangelogList.FormatAsMarkdown (c : ChangelogList) (order : List String) :
    Except Fault String :=
  match groupByScopeAndCommitType c with
  | .error e => .error e
  | .ok g => scopeLoop c g order ""

/-- The method `String`. -/
def ChangelogList.String (c : ChangelogList) (order : List String) : Except Fault String :=
  c.FormatAsMarkdown order

/-! ## The match, read off deterministically

Every component after the type word is optional, so a backtracking search
never has to give up a greedy choice: the functions below scan the subject
once, left to right. `findStringSubmatch_eq` proves that they compute
`FindStringSubmatch conventionalCommitRegex`. -/

/-- First word of the list that is a prefix of the input, with the rest. -/
def scanWords : List String → List Char → Option (List Char × List Char)
  | [], _ => none
  | w :: ws, s =>
    match stripLit w.data s with
    | some r => some (w.data, r)
    | none => scanWords ws s

/-- An optional single rune `ch`: the text taken and the rest. -/
def scanOne (ch : Char) : List Char → List Char × List Char
  | [] => ([], [])
  | a :: r => if a = ch then ([ch], r) else ([], a :: r)

/-- The optional scope: `(` run `)` when the run is closed, else a lone `(`. -/
def scanScope : List Char → List Char × List Char
  | [] => ([], [])
  | a :: t =>
    if a = '(' then
      match t.dropWhile scopeChar with
      | [] => (['('], t)
      | b :: r => if b = ')' then ('(' :: (t.takeWhile scopeChar ++ [')']), r) else (['('], t)
    else ([], a :: t)

/-- The body of a ticket after `[`: two or more capitals, `-`, digits, `]`. -/
def scanTicketBody (t : List Char) : Option (List Char × List Char) :=
  match t with
  | a :: b :: u =>
    if upperAZ a && upperAZ b then
      match u.dropWhile upperAZ with
      | h :: d :: v =>
        if h = '-' && digit09 d then
          match v.dropWhile digit09 with
          | e :: r =>
            if e = ']' then
              some (a :: b :: (u.takeWhile upperAZ ++ '-' :: d :: (v.takeWhile digit09 ++ [']'])), r)
            else none
          | [] => none
        else none
      | _ => none
    else none
  | _ => none

/-- The optional ticket: the bracketed text taken and the rest. -/
def scanTicket : List Char → List Char × List Char
  | [] => ([], [])
  | a :: t =>
    if a = '[' then
      match scanTicketBody t with
      | some (v, r) => ('[' :: v, r)
      | none => ([], a :: t)
    else ([], a :: t)

/-- The optional message: the whole rest when it is non-empty and has no line feed. -/
def scanMessage (s : List Char) : List Char :=
  if s ≠ [] ∧ s.all anyButLF then s else []

/-- The submatches of the pattern on a subject, scanned left to right. -/
def detMatch (s : List Char) : Option Caps :=
  match scanWords typeWords s with
  | none => none
  | some (ty, r1) =>
    let sc := scanScope r1
    let br := scanOne '!' sc.2
    let sp := scanOne ':' br.2
    let tk := scanTicket (sp.2.dropWhile blank)
    some { type := ty, scope := sc.1, breaking := br.1, separator := sp.1, ticket := tk.1,
           message := scanMessage (tk.2.dropWhile blank) }

/-- The entries of the list that pass the scope filter of its options, that
is, those the grouping loop does not skip. -/
def ChangelogList.included (c : ChangelogList) : List Changelog :=
  match c.opt with
  | none => []
  | some opt => c.changelogs.filter (fun e => !(opt.Scope != "" && e.Scope != opt.Scope))

/-- The keys of a map are distinct and are scopes of entries that pass the filter. -/
def KeysOk (c : ChangelogList) (g : Groups) : Prop :=
  g.keys.Nodup ∧ ∀ k ∈ g.keys, ∃ e ∈ c.included, e.Scope = k

/-- The delimiters that end the leading token of a subject: white space,
`(`, `!` and `:`. -/
def isTokenEnd (c : Char) : Bool := isSpace c || c == '(' || c == '!' || c == ':'

/-- The leading token of a subject: the longest run of runes at the start of
the trimmed subject that precedes the first white space, `(`, `!` or `:`. -/
def leadingToken (s : String) : List Char :=
  (trimSpaceRunes s.data).takeWhile (fun c => !isTokenEnd c)

/-- The state after an optional group `g` was scanned: the rest of the input,
and the group recorded when it took part. -/
def record (g : Group) (c : Caps) (p : List Char × List Char) : List Char × Caps :=
  (p.2, if p.1 = [] then c else c.set g p.1)

/-- A continuation that never fails. -/
def Total (k : List Char → Caps → Option Caps) : Prop := ∀ r c, (k r c).isSome = true

/-- The regular expression `a` never backtracks in front of a total continuation:
it reads the input as the function `f` does. -/
def Det (a : Re) (f : List Char → Caps → List Char × Caps) : Prop :=
  ∀ whole s c k, Total k → a.run whole s c k = k (f s c).1 (f s c).2

/-! ## The report, described bucket by bucket

The functions below describe the text of the report from the three buckets of
a scope; the theorems prove that `FormatAsMarkdown` writes exactly this. -/

/-- Concatenation of a list of strings. -/
def concatAll : List String → String
  | [] => ""
  | a :: l => a ++ concatAll l

/-- The markdown link that follows the message of an entry with a ticket. -/
def ticketLink (url : String) (e : Changelog) : String :=
  if e.JiraTicket ≠ "" then
    "([" ++ e.JiraTicket ++ "](" ++ url ++ "/browse/" ++ e.JiraTicket ++ ")) "
  else ""

/-- The text of the cell of an entry: `|`, the message (after the type and a
colon in the Others column) and the ticket link. -/
def cellText (url : String) (prefixType : Bool) (e : Changelog) : String :=
  "|" ++ ((if prefixType then e.Type_ ++ ": " ++ e.Message ++ " " else " " ++ e.Message ++ " ")
    ++ ticketLink url e)

/-- What a bucket contributes to row `row`: the cell of its entry at that
index, and nothing once the bucket is exhausted. -/
def cellAt (url : String) (prefixType : Bool) (bucket : List Changelog) (row : Nat) : String :=
  match bucket[row]? with
  | some e => cellText url prefixType e
  | none => ""

/-- The text of body row `row` of a scope block. -/
def rowText (url : String) (features fixes others : List Changelog) (row : Nat) : String :=
  cellAt url false features row ++ cellAt url false fixes row ++ cellAt url true others row
    ++ "|\n"

/-- The two header lines of the table of a scope block, after the heading. -/
def tableHeader : String :=
  "\n\n| **New Features** | **Bug Fixes** | **Others** |\n| --- | --- | --- |\n"

/-- The body rows of a scope block: one per index below the longest bucket. -/
def bodyRows (url : String) (features fixes others : List Changelog) : List String :=
  (List.range (max features.length (max fixes.length others.length))).map
    (rowText url features fixes others)

/-- The text of the block of one scope. -/
def blockText (url scope : String) (features fixes others : List Changelog) : String :=
  "### " ++ scope ++ tableHeader ++ concatAll (bodyRows url features fixes others) ++ "\n\n"

/-- The bucket stored in the grouping map under a scope and a reduced type. -/
def bucketOf (g : Groups) (scope commitType : String) : List Changelog :=
  (((g.get? scope).getD []).get? commitType).getD []

/-- The entries of a scope that pass the filter and have type `feature` or
`feat`, in the order of the list. -/
def featuresOf (c : ChangelogList) (scope : String) : List Changelog :=
  c.included.filter (fun e => e.Scope == scope && (e.Type_ == "feature" || e.Type_ == "feat"))

/-- The entries of a scope that pass the filter and have type `fix`, in the
order of the list. -/
def fixesOf (c : ChangelogList) (scope : String) : List Changelog :=
  c.included.filter (fun e => e.Scope == scope && e.Type_ == "fix")

/-- The remaining entries of a scope that pass the filter, in the order of the list. -/
def othersOf (c : ChangelogList) (scope : String) : List Changelog :=
  c.included.filter
    (fun e => e.Scope == scope && !(e.Type_ == "feature" || e.Type_ == "feat" || e.Type_ == "fix"))

/-- A list of four entries over the scopes `a` and `b`, without scope filter. -/
def sampleList : ChangelogList :=
  { changelogs :=
      [⟨"feat", "a", "x", false, "", none⟩, ⟨"fix", "a", "y", false, "AB-1", none⟩,
        ⟨"feature", "a", "z", false, "", none⟩, ⟨"docs", "b", "w", false, "", none⟩],
    opt := some ⟨"", "https://jira"⟩ }

/-! ## `prereleaser.go`

The git library (`go-git`, `go-gitlog`) and the file system are outside the
repository; they are taken as given functions. A call that returns an error
in Go is a `none` here. -/

/-- The result of a Go function returning `(value, error)`: a value, an
error with its message, a run-time panic (nil pointer dereference), or the
exit of the process through `log.Fatalf`. -/
inductive Outcome (α : Type) where
  | ok : α → Outcome α
  | err : String → Outcome α
  | panic : Outcome α
  | fatal : String → Outcome α
  deriving DecidableEq, Repr

/-- The parts of an `object.Commit` the code reads: its hash, the committer
time `Committer.When` as an instant, and the result of `Tree()` (a tree
handle, `none` when `Tree()` returns an error). -/
structure Commit where
  Hash : String
  When : Int
  Tree : Option Nat
  deriving DecidableEq, Repr

/-- A `plumbing.Reference`: its name and the hash it points to. -/
structure Reference where
  Name : String
  Hash : String
  deriving DecidableEq, Repr

/-- A file patch of a diff: the paths of the two files of `Files()`, `none`
for a nil file. -/
structure FilePatch where
  From : Option String
  To : Option String
  deriving DecidableEq, Repr

/-- The methods of `git.Repository`, of trees and of changes that the code calls. -/
structure Repository where
  Head : Option Reference
  Tags : Option (List Reference)
  ResolveRevision : String → Option String
  CommitObject : String → Option Commit
  Diff : Nat → Nat → Option Nat
  Patch : Nat → Option (List FilePatch)

/-- A commit of `gitlog`: subject line and hash. -/
structure GitlogCommit where
  Subject : String
  Hash : Option GitHash
  deriving DecidableEq, Repr

/-- The world outside the repository handle: `filepath.Join`, reading a file
(`os.Open` followed by `io.Copy`; `none` when the file cannot be opened), and
`gitlog.Log` on a path and a revision range. -/
structure Env where
  Join : String → String → String
  Open : String → Option String
  Log : String → String → String → Option (List GitlogCommit)

/-- The struct `GitApp`; `head` and `latestTagCommit` are pointers. -/
structure GitApp where
  repository : Repository
  repoPath : String
  head : Option Reference
  latestTag : String
  latestTagCommit : Option Commit
  trunkBranch : String

/-- The callback passed to `tagRefs.ForEach` in `getLatestTag`, acting on the
captured variables `latestTagCommit` and `latestTagName`. -/
def tagStep (repo : Repository) (st : Option Commit × String) (tagRef : Reference) :
    Except String (Option Commit × String) :=
  let revision := tagRef.Name
  match repo.ResolveRevision revision with
  | none => .error ("error on resolving revision " ++ revision)
  | some tagCommitHash =>
    match repo.CommitObject tagCommitHash with
    | none => .error ("error on getting commit object for ref " ++ revision)
    | some commit =>
      let cur : Commit × String :=
        match st with
        | (none, _) => (commit, tagRef.Name)
        | (some latestTagCommit, latestTagName) => (latestTagCommit, latestTagName)
      if commit.When > cur.1.When then .ok (some commit, tagRef.Name)
      else .ok (some cur.1, cur.2)

/-- The iteration `ForEach` over the tag references: it stops at the first
error returned by the callback. -/
def tagLoop (repo : Repository) : Option Commit × String → List Reference →
    Except String (Option Commit × String)
  | st, [] => .ok st
  | st, tagRef :: rest =>
    match tagStep repo st tagRef with
    | .error e => .error e
    | .ok st1 => tagLoop repo st1 rest

/-- The method `getLatestTag`: the state of the `GitApp` after the call and
the error returned (`none` for nil). -/
def getLatestTag (g : GitApp) : GitApp × Option String :=
  match g.repository.Tags with
  | none => (g, some "error on get tags")
  | some tagRefs =>
    match tagLoop g.repository (none, "") tagRefs with
    | .error e => (g, some e)
    | .ok (latestTagCommit, latestTagName) =>
      ({ g with latestTag := latestTagName, latestTagCommit := latestTagCommit }, none)

/-- The function `NewGitAppFromRepository` (on the `GitApp` of `NewGitApp`,
whose trunk branch is `master`). -/
def NewGitAppFromRepository (repository : Repository) (repositoryLocalPath : String) :
    Outcome GitApp :=
  match repository.Head with
  | none => .err "error getting head"
  | some head =>
    let gitApp : GitApp :=
      { repository := repository, repoPath := repositoryLocalPath, head := some head,
        latestTag := "", latestTagCommit := none, trunkBranch := "master" }
    match getLatestTag gitApp with
    | (_, some _) => .err "error getting latest tag"
    | (gitApp, none) => .ok gitApp

/-- The loop of `GetChangeLogs` over the commits of the log. -/
def addChangelogs : ChangelogList → List GitlogCommit → ChangelogList
  | changelogList, [] => changelogList
  | changelogList, commit :: rest =>
    match ChangelogFromCommitMessage commit.Subject with
    | none => addChangelogs changelogList rest
    | some changelog =>
      addChangelogs (changelogList.Add { changelog with Hash := commit.Hash }) rest

/-- The method `GetChangeLogs`. -/
def GetChangeLogs (env : Env) (g : GitApp) (_from _to : String) : Outcome ChangelogList :=
  match env.Log g.repoPath g.latestTag g.trunkBranch with
  | none => .err "error getting git log from latest tag"
  | some commits =>
    .ok (addChangelogs
      (NewChangelogList (some { Scope := "", JiraURL := "https://tokopedia.atlassian.net" }))
      commits)

/-- The method `GetLatestChangeLogs`: both arguments are read through a pointer. -/
def GetLatestChangeLogs (env : Env) (g : GitApp) : Outcome ChangelogList :=
  match g.head with
  | none => .panic
  | some head =>
    match g.latestTagCommit with
    | none => .panic
    | some latestTagCommit => GetChangeLogs env g head.Hash latestTagCommit.Hash

/-- Go `strings.HasSuffix`. -/
def HasSuffix (s suffix : String) : Bool := suffix.data.isSuffixOf s.data

/-- The first loop of `GenerateSchemaScript`: the paths recorded in `schemaChanges`. -/
def collectSchemaChanges : List FilePatch → List String
  | [] => []
  | filePatch :: rest =>
    match filePatch.From with
    | none => collectSchemaChanges rest
    | some path =>
      if HasSuffix path ".sql" then path :: collectSchemaChanges rest
      else collectSchemaChanges rest

/-- The second loop of `GenerateSchemaScript`, writing to `schemaChangesBuffer`. -/
def writeSchemaChanges (env : Env) (repoPath : String) : List String → String → Outcome String
  | [], buffer => .ok buffer
  | schemaChange :: rest, buffer =>
    match env.Open (env.Join repoPath schemaChange) with
    | none => .fatal ("error opening schema change " ++ schemaChange)
    | some content =>
      writeSchemaChanges env repoPath rest
        (buffer ++ ("-- " ++ schemaChange) ++ "\n" ++ content ++ "\n\n")

/-- The method `GenerateSchemaScript`. -/
def GenerateSchemaScript (env : Env) (g : GitApp) : Outcome String :=
  match g.head with
  | none => .panic
  | some head =>
    match g.repository.CommitObject head.Hash with
    | none => .err "error getting head commit"
    | some headCommit =>
      match headCommit.Tree with
      | none => .err "error getting head tree"
      | some headTree =>
        match g.latestTagCommit with
        | none => .panic
        | some latestTagCommit =>
          match latestTagCommit.Tree with
          | none => .err "error getting latest tagged commit tree"
          | some tree =>
            match g.repository.Diff headTree tree with
            | none => .err "error getting changes from latest tag"
            | some changes =>
              match g.repository.Patch changes with
              | none => .err "error get diff patch"
              | some patch =>
                writeSchemaChanges env g.repoPath (collectSchemaChanges patch) ""

/-- The commit a tag resolves to: `ResolveRevision` followed by `CommitObject`. -/
def resolveTag (repo : Repository) (tagRef : Reference) : Option Commit :=
  (repo.ResolveRevision tagRef.Name).bind repo.CommitObject

/-- A repository handle whose tags are `tags`: the tags `v0`, `v1`, `v2`
resolve to commits of times 10, 20, 20, any other revision does not resolve;
the head commit `h9` and the tag commits have trees, and the diff of the head
tree against any tree has three file patches. -/
def repoWithTags (tags : List Reference) : Repository :=
  { Head := some ⟨"refs/heads/master", "h9"⟩
    Tags := some tags
    ResolveRevision := fun r =>
      if r = "refs/tags/v0" then some "h0"
      else if r = "refs/tags/v1" then some "h1"
      else if r = "refs/tags/v2" then some "h2"
      else none
    CommitObject := fun h =>
      if h = "h0" then some ⟨"h0", 10, some 0⟩
      else if h = "h1" then some ⟨"h1", 20, some 1⟩
      else if h = "h2" then some ⟨"h2", 20, some 2⟩
      else if h = "h9" then some ⟨"h9", 30, some 9⟩
      else none
    Diff := fun a b => some (a + b)
    Patch := fun _ =>
      some [⟨some "db/a.sql", some "db/a.sql"⟩, ⟨none, some "db/new.sql"⟩,
        ⟨some "main.go", some "main.go"⟩] }

/-- A file system holding `db/a.sql` under `/repo`, and a log of two commits. -/
def sampleEnv : Env :=
  { Join := fun a b => a ++ "/" ++ b
    Open := fun p => if p = "/repo/db/a.sql" then some "CREATE TABLE a;" else none
    Log := fun _ _ _ => some [⟨"feat(app): add a", none⟩, ⟨"merge branch", none⟩] }

/-- A `GitApp` on `repoWithTags tags`, before `getLatestTag`. -/
def appWithTags (tags : List Reference) : GitApp :=
  { repository := repoWithTags tags, repoPath := "/repo",
    head := some ⟨"refs/heads/master", "h9"⟩, latestTag := "", latestTagCommit := none,
    trunkBranch := "master" }

/-- The three tags `v0`, `v1`, `v2`. -/
def sampleTags : List Reference :=
  [⟨"refs/tags/v0", "h0"⟩, ⟨"refs/tags/v1", "h1"⟩, ⟨"refs/tags/v2", "h2"⟩]

/-- The lower case of the code points of one entry: it consists of valid code
points other than `A`..`Z`. -/
def imageOK (r : Nat × Nat × Nat × Nat) : Bool :=
  (decide (r.2.2.2 + (r.2.1 - r.1) < 0xD800) ||
      (decide (0xDFFF < r.2.2.2) && decide (r.2.2.2 + (r.2.1 - r.1) < 0x110000))) &&
    (decide (90 < r.2.2.2) || decide (r.2.2.2 + (r.2.1 - r.1) < 65))

/-- No lower case given by the entry `r` is a code point listed by the entry `r2`. -/
def apartOK (r r2 : Nat × Nat × Nat × Nat) : Bool :=
  decide (r.2.2.2 + (r.2.1 - r.1) < r2.1) || decide (r2.2.1 < r.2.2.2) ||
    (List.range (r.2.1 - r.1 + 1)).all
      (fun d => !(inRange r (r.1 + d)) || !(inRange r2 (r.2.2.2 + d)))

/-- The check that the lower case of a code point has no other lower case. -/
def tableOK : Bool :=
  lowerRanges.all (fun r => imageOK r && lowerRanges.all (fun r2 => apartOK r r2))

/-! ## Theorems

### The matcher never gives up a greedy choice -/

theorem stripLit_eq_some {l s r : List Char} : stripLit l s = some r ↔ s = l ++ r := by
  induction l generalizing s with
  | nil => simp [stripLit, eq_comm]
  | cons a l ih =>
    cases s with
    | nil => simp [stripLit]
    | cons b s =>
      by_cases h : a = b
      · subst h; simp [stripLit, ih]
      · simp [stripLit, h]; intro h2; exact absurd h2.symm h

theorem stripLit_append (l r : List Char) : stripLit l (l ++ r) = some r :=
  stripLit_eq_some.mpr rfl

theorem orElse_of_isSome {α : Type} {x : Option α} (f : Unit → Option α)
    (h : x.isSome = true) : x.orElse f = x := by
  cases x with
  | none => simp at h
  | some a => rfl

theorem none_orElse {α : Type} (f : Unit → Option α) : (none : Option α).orElse f = f () := rfl

theorem orElse_fun_none {α : Type} (x : Option α) : x.orElse (fun _ => none) = x := by
  cases x <;> rfl

theorem take_length_sub (pre r : List Char) :
    (pre ++ r).take ((pre ++ r).length - r.length) = pre := by
  simp

theorem starLoop_of_isSome (p : Char → Bool) (k : List Char → Option Caps) (s : List Char)
    (h : (k (s.dropWhile p)).isSome = true) : starLoop p k s = k (s.dropWhile p) := by
  induction s with
  | nil => rfl
  | cons a t ih =>
    by_cases hp : p a = true
    · simp only [List.dropWhile_cons, hp, if_true] at h ⊢
      simp only [starLoop, hp, if_true]
      rw [ih h]
      exact orElse_of_isSome _ h
    · simp [starLoop, hp]

theorem starLoop_blocked (p : Char → Bool) (k : List Char → Option Caps) (s : List Char)
    (h : ∀ a r, p a = true → k (a :: r) = none) : starLoop p k s = k (s.dropWhile p) := by
  induction s with
  | nil => rfl
  | cons a t ih =>
    by_cases hp : p a = true
    · simp only [starLoop, hp, if_true, List.dropWhile_cons]
      rw [h a t hp, orElse_fun_none, ih]
    · simp [starLoop, hp]

theorem det_total {a : Re} {f} (h : Det a f) (whole : List Char) {k} (hk : Total k) :
    Total (fun r c => a.run whole r c k) := by
  intro r c
  simp only [h whole r c k hk]
  exact hk _ _

theorem det_star (p : Char → Bool) : Det (.star p) (fun s c => (s.dropWhile p, c)) := by
  intro whole s c k hk
  simp only [Re.run]
  exact starLoop_of_isSome p _ s (hk _ _)

theorem det_seq {a b : Re} {f g} (ha : Det a f) (hb : Det b g) :
    Det (.seq a b) (fun s c => g (f s c).1 (f s c).2) := by
  intro whole s c k hk
  simp only [Re.run]
  rw [ha whole s c _ (det_total hb whole hk)]
  exact hb whole _ _ k hk

theorem det_opt_one (g : Group) (ch : Char) :
    Det (.opt (.cap g (.lit [ch]))) (fun s c => record g c (scanOne ch s)) := by
  intro whole s c k hk
  cases s with
  | nil => simp [Re.run, stripLit, scanOne, record]
  | cons a r =>
    by_cases h : a = ch
    · subst h
      simp only [Re.run, stripLit, if_true, scanOne, record]
      rw [orElse_of_isSome _ (hk _ _)]
      simp
    · have h2 : ¬ ch = a := fun e => h e.symm
      simp [Re.run, stripLit, scanOne, record, h, h2]

theorem starLoop_then_lit (p : Char → Bool) (ch : Char) (hch : p ch = false)
    (k : List Char → Option Caps) (t : List Char) :
    starLoop p (fun r => match stripLit [ch] r with
      | some r => k r
      | none => none) t
    = (match stripLit [ch] (t.dropWhile p) with
      | some r => k r
      | none => none) := by
  apply starLoop_blocked p _ t
  intro x r hx
  have : ¬ ch = x := by
    intro e; subst e; rw [hch] at hx; exact Bool.noConfusion hx
  simp [stripLit, this]

theorem det_opt_scope : Det (.opt scopeRe) (fun s c => record .scope c (scanScope s)) := by
  intro whole s c k hk
  cases s with
  | nil => simp [Re.run, scopeRe, stripLit, scanScope, record]
  | cons a t =>
    by_cases h : a = '('
    · subst h
      simp only [Re.run, scopeRe, stripLit, if_true, scanScope]
      rw [starLoop_then_lit scopeChar ')' (by decide)]
      have hsplit := List.takeWhile_append_dropWhile scopeChar t
      cases hd : t.dropWhile scopeChar with
      | nil =>
        simp only [stripLit, record]
        rw [none_orElse, orElse_of_isSome _ (hk _ _)]
        simp
      | cons b r =>
        by_cases hb2 : b = ')'
        · subst hb2
          simp only [stripLit, if_true, record]
          rw [orElse_of_isSome _ (hk _ _), orElse_of_isSome _ (hk _ _)]
          rw [hd] at hsplit
          have e : ('(' :: t) = ('(' :: (t.takeWhile scopeChar ++ [')'])) ++ r := by
            simp [hsplit]
          have := take_length_sub ('(' :: (t.takeWhile scopeChar ++ [')'])) r
          rw [← e] at this
          rw [this]
          simp
        · have hb3 : ¬ ')' = b := fun e => hb2 e.symm
          simp only [stripLit, hb3, hb2, if_false, record]
          rw [none_orElse, orElse_of_isSome _ (hk _ _)]
          simp
    · have h2 : ¬ '(' = a := fun e => h e.symm
      simp [Re.run, scopeRe, stripLit, scanScope, record, h, h2]

theorem run_ticket_body (whole t : List Char) (c : Caps) (K : List Char → Caps → Option Caps) :
    Re.run whole (.seq (.cls upperAZ) (.seq (.plus upperAZ)
      (.seq (.lit ['-']) (.seq (.plus digit09) (.lit [']']))))) t c K
    = (match scanTicketBody t with
      | some p => K p.2 c
      | none => none) := by
  simp only [Re.run]
  simp only [starLoop_then_lit digit09 ']' (by decide)]
  unfold scanTicketBody
  rcases t with _ | ⟨a, _ | ⟨b, u⟩⟩
  · simp
  · by_cases ha : upperAZ a = true <;> simp [ha]
  · by_cases ha : upperAZ a = true
    · by_cases hb : upperAZ b = true
      · simp only [ha, hb, if_true, Bool.and_self]
        rw [starLoop_then_lit upperAZ '-' (by decide)]
        rcases hd : u.dropWhile upperAZ with _ | ⟨h, _ | ⟨d, v⟩⟩
        · simp [stripLit]
        · by_cases hh : h = '-' <;> simp [stripLit, hh, eq_comm]
        · by_cases hh : h = '-'
          · subst hh
            by_cases hdg : digit09 d = true
            · simp only [stripLit, if_true, hdg, decide_True, Bool.and_self]
              rcases hv : v.dropWhile digit09 with _ | ⟨e, r⟩
              · simp [stripLit]
              · by_cases he : e = ']'
                · subst he; simp [stripLit]
                · have he2 : ¬ ']' = e := fun x => he x.symm
                  simp [stripLit, he, he2]
            · simp [stripLit, hdg]
          · have hh2 : ¬ '-' = h := fun x => hh x.symm
            simp [stripLit, hh, hh2]
      · simp [ha, hb]
    · simp [ha]

theorem scanTicketBody_eq {t : List Char} {p : List Char × List Char}
    (h : scanTicketBody t = some p) : t = p.1 ++ p.2 := by
  unfold scanTicketBody at h
  rcases t with _ | ⟨a, _ | ⟨b, u⟩⟩
  · simp at h
  · simp at h
  · simp only at h
    split at h
    · have hu := List.takeWhile_append_dropWhile upperAZ u
      rcases hd : u.dropWhile upperAZ with _ | ⟨x, _ | ⟨d, v⟩⟩
      · rw [hd] at h; simp at h
      · rw [hd] at h; simp at h
      · rw [hd] at h hu
        simp only at h
        split at h
        · rename_i hx
          have hv := List.takeWhile_append_dropWhile digit09 v
          rcases hv2 : v.dropWhile digit09 with _ | ⟨e, r⟩
          · rw [hv2] at h; simp at h
          · rw [hv2] at h hv
            simp only at h
            split at h
            · rename_i he
              subst he
              simp only [Option.some.injEq] at h
              subst h
              simp only [Bool.and_eq_true, decide_eq_true_eq] at hx
              obtain ⟨hx1, -⟩ := hx
              subst hx1
              simp only [List.cons_append, List.append_assoc, List.singleton_append,
                List.cons.injEq, true_and, List.nil_append]
              rw [hv]
              exact hu.symm
            · simp at h
        · simp at h
    · simp at h

theorem det_opt_ticket : Det (.opt ticketRe) (fun s c => record .ticket c (scanTicket s)) := by
  intro whole s c k hk
  cases s with
  | nil => simp [Re.run, ticketRe, stripLit, scanTicket, record]
  | cons a t =>
    by_cases h : a = '['
    · subst h
      have hrun := run_ticket_body whole t c
        (fun r c1 => k r (c1.set .ticket (('[' :: t).take (('[' :: t).length - r.length))))
      simp only [Re.run] at hrun
      simp only [Re.run, ticketRe, stripLit, if_true, scanTicket]
      rw [hrun]
      cases hb : scanTicketBody t with
      | none => simp [record]
      | some p =>
        have e := scanTicketBody_eq hb
        have e2 : ('[' :: t) = ('[' :: p.1) ++ p.2 := by simp [e]
        have e3 := take_length_sub ('[' :: p.1) p.2
        rw [← e2] at e3
        simp only [record]
        rw [orElse_of_isSome _ (hk _ _), e3]
        simp
    · have h2 : ¬ '[' = a := fun e => h e.symm
      simp [Re.run, ticketRe, stripLit, scanTicket, record, h, h2]

theorem det_opt_message :
    Det (.opt messageRe)
      (fun s c => if scanMessage s = [] then (s, c) else ([], c.set .message s)) := by
  intro whole s c k hk
  cases s with
  | nil => simp [Re.run, messageRe, scanMessage]
  | cons a r =>
    simp only [Re.run, messageRe]
    by_cases ha : anyButLF a = true
    · simp only [ha, if_true]
      rw [starLoop_blocked anyButLF _ r (by intro x y _; simp)]
      by_cases hr : r.dropWhile anyButLF = []
      · have hall := List.dropWhile_eq_nil_iff.mp hr
        have hm : scanMessage (a :: r) = a :: r := by
          simp only [scanMessage, List.all_cons, ha, Bool.true_and]
          rw [if_pos]
          exact ⟨by simp, by simpa using hall⟩
        simp only [hr, if_true, hm]
        rw [orElse_of_isSome _ (hk _ _)]
        simp
      · have hm : scanMessage (a :: r) = [] := by
          simp only [scanMessage, List.all_cons, ha, Bool.true_and]
          rw [if_neg]
          intro h
          exact hr (List.dropWhile_eq_nil_iff.mpr (by simpa using h.2))
        simp [hr, hm]
    · have hm : scanMessage (a :: r) = [] := by
        simp [scanMessage, ha]
      simp [ha, hm]

theorem scanWords_eq {ws : List String} {s : List Char} {p : List Char × List Char}
    (h : scanWords ws s = some p) : s = p.1 ++ p.2 ∧ ∃ w ∈ ws, p.1 = w.data := by
  induction ws with
  | nil => simp [scanWords] at h
  | cons w ws ih =>
    simp only [scanWords] at h
    cases hs : stripLit w.data s with
    | none =>
      rw [hs] at h
      obtain ⟨h1, w2, hw2, h2⟩ := ih h
      exact ⟨h1, w2, List.mem_cons_of_mem _ hw2, h2⟩
    | some r =>
      rw [hs] at h
      simp only [Option.some.injEq] at h
      subst h
      exact ⟨stripLit_eq_some.mp hs, w, List.mem_cons_self _ _, rfl⟩

theorem run_altLits (whole : List Char) (w : String) (ws : List String) (s : List Char)
    (c : Caps) (K : List Char → Caps → Option Caps) (hK : Total K) :
    (altLits (w :: ws)).run whole s c K
    = (match scanWords (w :: ws) s with
      | some p => K p.2 c
      | none => none) := by
  induction ws generalizing w with
  | nil =>
    simp only [altLits, Re.run, scanWords]
    cases stripLit w.data s <;> rfl
  | cons v ws ih =>
    simp only [altLits, Re.run]
    rw [ih v]
    simp only [scanWords]
    cases hs : stripLit w.data s with
    | none => simp [none_orElse, scanWords]
    | some r => exact orElse_of_isSome _ (hK _ _)

theorem findFrom_bot_short (X : Re) (whole t : List Char) (h : t.length < whole.length) :
    findFrom (.seq .bot X) whole t = none := by
  induction t with
  | nil =>
    have : ¬ (0 = whole.length) := by
      simp only [List.length_nil] at h; omega
    simp [findFrom, Re.run, this]
  | cons a t ih =>
    have h1 : ¬ (t.length + 1 = whole.length) := by
      simp only [List.length_cons] at h; omega
    have h2 : t.length < whole.length := by
      simp only [List.length_cons] at h; omega
    simp [findFrom, Re.run, h1, ih h2, none_orElse]

theorem findStringSubmatch_bot (X : Re) (s : List Char) :
    FindStringSubmatch (.seq .bot X) s = X.run s s {} (fun _ c => some c) := by
  unfold FindStringSubmatch
  cases s with
  | nil => simp [findFrom, Re.run]
  | cons a t =>
    simp only [findFrom, Re.run, if_true]
    rw [findFrom_bot_short X (a :: t) t (by simp)]
    exact orElse_fun_none _

theorem run_seq (whole : List Char) (a b : Re) (s : List Char) (c : Caps)
    (k : List Char → Caps → Option Caps) :
    (Re.seq a b).run whole s c k = a.run whole s c (fun r c1 => b.run whole r c1 k) := rfl

theorem run_cap (whole : List Char) (g : Group) (a : Re) (s : List Char) (c : Caps)
    (k : List Char → Caps → Option Caps) :
    (Re.cap g a).run whole s c k
      = a.run whole s c (fun r c1 => k r (c1.set g (s.take (s.length - r.length)))) := rfl

theorem scanMessage_eq_self {x : List Char} (h : scanMessage x ≠ []) : scanMessage x = x := by
  unfold scanMessage at h ⊢
  by_cases h2 : x ≠ [] ∧ x.all anyButLF = true
  · rw [if_pos h2]
  · rw [if_neg h2] at h; exact absurd rfl h

theorem total_final : Total (fun _ c => some c) := fun _ _ => rfl

/-- The leftmost-first match of the pattern is the left-to-right scan. -/
theorem findStringSubmatch_eq (s : List Char) :
    FindStringSubmatch conventionalCommitRegex s = detMatch s := by
  have hrest := det_seq det_opt_scope (det_seq (det_opt_one .breaking '!')
    (det_seq (det_opt_one .separator ':') (det_seq (det_star blank)
      (det_seq det_opt_ticket (det_seq (det_star blank) det_opt_message)))))
  unfold conventionalCommitRegex
  rw [findStringSubmatch_bot, run_seq, run_cap]
  have hK := det_total hrest s total_final
  rw [show typeWords = "feature" :: ["feat", "fix", "docs", "style", "refactor", "test",
    "chore", "enhance", "config"] from rfl]
  rw [run_altLits s _ _ s _ _ (fun r c => hK r _)]
  unfold detMatch
  rw [show "feature" :: ["feat", "fix", "docs", "style", "refactor", "test",
    "chore", "enhance", "config"] = typeWords from rfl]
  cases hw : scanWords typeWords s with
  | none => rfl
  | some p =>
    obtain ⟨ty, r1⟩ := p
    have e := (scanWords_eq hw).1
    simp only at e
    have e3 := take_length_sub ty r1
    rw [← e] at e3
    simp only [e3]
    rw [hrest s r1 _ _ total_final]
    simp only [record, Caps.set]
    generalize scanScope r1 = sc
    generalize scanOne '!' sc.2 = br
    generalize scanOne ':' br.2 = sp
    generalize scanTicket (List.dropWhile blank sp.2) = tk
    generalize List.dropWhile blank tk.2 = x
    clear hrest hK hw e e3
    by_cases h5 : scanMessage x = []
    · by_cases h1 : sc.1 = [] <;> by_cases h2 : br.1 = [] <;> by_cases h3 : sp.1 = [] <;>
        by_cases h4 : tk.1 = [] <;> simp [h1, h2, h3, h4, h5]
    · have h6 := (scanMessage_eq_self h5).symm
      by_cases h1 : sc.1 = [] <;> by_cases h2 : br.1 = [] <;> by_cases h3 : sp.1 = [] <;>
        by_cases h4 : tk.1 = [] <;> simp [h1, h2, h3, h4, h5] <;> exact h6

/-! ### The parser in terms of the scan -/

theorem changelog_eq_detMatch (msg : String) :
    ChangelogFromCommitMessage msg =
      match detMatch (trimSpaceRunes msg.data) with
      | none => none
      | some result =>
        if result.message = [] then none
        else some {
          Type_ := ToLower ⟨result.type⟩
          Scope := ToLower
            ⟨if byteLen result.scope > 2 then sliceInner result.scope else result.scope⟩
          Message := ⟨result.message⟩
          Breaking := result.breaking == ['!']
          JiraTicket :=
            ⟨if byteLen result.ticket > 2 then sliceInner result.ticket else result.ticket⟩
          Hash := none } := by
  unfold ChangelogFromCommitMessage
  simp only [TrimSpace, findStringSubmatch_eq]

theorem trim_eq_self (s : List Char) (h1 : ∀ c, s.head? = some c → isSpace c = false)
    (h2 : ∀ c, s.getLast? = some c → isSpace c = false) : trimSpaceRunes s = s := by
  unfold trimSpaceRunes
  have e1 : s.dropWhile isSpace = s := by
    cases s with
    | nil => rfl
    | cons a t =>
      have := h1 a rfl
      simp [List.dropWhile_cons, this]
  rw [e1, List.rdropWhile_eq_self_iff]
  intro hl
  have := h2 (s.getLast hl) (List.getLast?_eq_getLast s hl)
  simp [this]

theorem scanWords_typeWord (T : String) (hT : T ∈ typeWords) (r : List Char)
    (hr : r.head? ≠ some 'u') : scanWords typeWords (T.data ++ r) = some (T.data, r) := by
  simp only [typeWords, List.mem_cons, List.mem_singleton, List.not_mem_nil, or_false] at hT
  rcases hT with rfl | rfl | rfl | rfl | rfl | rfl | rfl | rfl | rfl | rfl
  all_goals first
    | (simp [scanWords, typeWords, stripLit]; done)
    | (cases r with
       | nil => simp [scanWords, typeWords, stripLit]
       | cons a t =>
         have : ¬ 'u' = a := by
           intro e; subst e; simp at hr
         simp [scanWords, typeWords, stripLit, this])

theorem scanOne_hit (ch : Char) (r : List Char) : scanOne ch (ch :: r) = ([ch], r) := by
  simp [scanOne]

theorem scanOne_miss (ch : Char) (r : List Char) (h : r.head? ≠ some ch) :
    scanOne ch r = ([], r) := by
  cases r with
  | nil => rfl
  | cons a t =>
    have : ¬ a = ch := by intro e; subst e; simp at h
    simp [scanOne, this]

theorem scanScope_miss (r : List Char) (h : r.head? ≠ some '(') : scanScope r = ([], r) := by
  cases r with
  | nil => rfl
  | cons a t =>
    have : ¬ a = '(' := by intro e; subst e; simp at h
    simp [scanScope, this]

theorem scanScope_closed (S r : List Char) (hS : ∀ c ∈ S, scopeChar c = true) :
    scanScope ('(' :: (S ++ ')' :: r)) = ('(' :: (S ++ [')']), r) := by
  have h1 : (S ++ ')' :: r).dropWhile scopeChar = ')' :: r := by
    rw [List.dropWhile_append_of_pos hS]
    exact List.dropWhile_cons_of_neg (by decide)
  have h2 : (S ++ ')' :: r).takeWhile scopeChar = S := by
    rw [List.takeWhile_append_of_pos hS, List.takeWhile_cons_of_neg (by decide)]
    simp
  simp only [scanScope, if_true, h1, h2]

theorem scanTicket_miss (r : List Char) (h : r.head? ≠ some '[') : scanTicket r = ([], r) := by
  cases r with
  | nil => rfl
  | cons a t =>
    have : ¬ a = '[' := by intro e; subst e; simp at h
    simp [scanTicket, this]

theorem dropWhile_blank_self (r : List Char) (h : r.head? ≠ some ' ') :
    r.dropWhile blank = r := by
  cases r with
  | nil => rfl
  | cons a t =>
    have : ¬ a = ' ' := by intro e; subst e; simp at h
    simp [List.dropWhile_cons, blank, this]

theorem scanMessage_self (M : List Char) (hM : M ≠ []) (hlf : '\n' ∉ M) : scanMessage M = M := by
  unfold scanMessage
  rw [if_pos]
  refine ⟨hM, ?_⟩
  rw [List.all_eq_true]
  intro c hc
  have : ¬ c = '\n' := by intro e; subst e; exact hlf hc
  simp [anyButLF, this]

theorem byteLen_cons (a : Char) (s : List Char) : byteLen (a :: s) = a.utf8Size + byteLen s := by
  simp [byteLen]

theorem byteLen_append (s t : List Char) : byteLen (s ++ t) = byteLen s + byteLen t := by
  simp [byteLen]

theorem byteLen_pos {s : List Char} (h : s ≠ []) : 0 < byteLen s := by
  cases s with
  | nil => exact absurd rfl h
  | cons a t =>
    rw [byteLen_cons]
    have := Char.utf8Size_pos a
    omega

theorem toLower_typeWord (T : String) (hT : T ∈ typeWords) : ToLower ⟨T.data⟩ = T := by
  simp only [typeWords, List.mem_cons, List.mem_singleton, List.not_mem_nil, or_false] at hT
  rcases hT with rfl | rfl | rfl | rfl | rfl | rfl | rfl | rfl | rfl | rfl <;> decide

theorem typeWord_head (T : String) (hT : T ∈ typeWords) :
    ∃ a t, T.data = a :: t ∧ isSpace a = false := by
  simp only [typeWords, List.mem_cons, List.mem_singleton, List.not_mem_nil, or_false] at hT
  rcases hT with rfl | rfl | rfl | rfl | rfl | rfl | rfl | rfl | rfl | rfl <;>
    exact ⟨_, _, rfl, by decide⟩

/-- C1: a subject `T(S)b: M` with a type word `T`, a non-empty scope `S` free of
parentheses, CR and LF, a marker `b` that is empty or `!`, and a non-empty
message `M` without line feed, without outer white space and not starting with
`[` parses to the entry with exactly these parts, the scope lower-cased, no
ticket and no hash. -/
theorem C1_full_subject (T S b M : String) (hT : T ∈ typeWords)
    (hS : S.data ≠ []) (hSc : ∀ c ∈ S.data, c ≠ '(' ∧ c ≠ ')' ∧ c ≠ '\r' ∧ c ≠ '\n')
    (hb : b = "" ∨ b = "!")
    (hM : M.data ≠ []) (hlf : '\n' ∉ M.data)
    (hhead : ∀ c ∈ M.data.head?, isSpace c = false ∧ c ≠ '[')
    (hlast : ∀ c ∈ M.data.getLast?, isSpace c = false) :
    ChangelogFromCommitMessage (T ++ "(" ++ S ++ ")" ++ b ++ ": " ++ M)
      = some { Type_ := T, Scope := ToLower S, Message := M, Breaking := b == "!",
               JiraTicket := "", Hash := none } := by
  obtain ⟨a, t, hTd, ha⟩ := typeWord_head T hT
  have hdata : (T ++ "(" ++ S ++ ")" ++ b ++ ": " ++ M).data
      = T.data ++ ('(' :: (S.data ++ ')' :: (b.data ++ ':' :: ' ' :: M.data))) := by
    simp [String.data_append]
  have htrim : trimSpaceRunes (T.data ++ ('(' :: (S.data ++ ')' :: (b.data ++ ':' :: ' ' :: M.data))))
      = T.data ++ ('(' :: (S.data ++ ')' :: (b.data ++ ':' :: ' ' :: M.data))) := by
    apply trim_eq_self
    · intro c hc
      rw [hTd] at hc
      simp only [List.cons_append, List.head?_cons, Option.some.injEq] at hc
      rw [← hc]; exact ha
    · intro c hc
      apply hlast c
      have e : T.data ++ ('(' :: (S.data ++ ')' :: (b.data ++ ':' :: ' ' :: M.data)))
          = (T.data ++ ('(' :: (S.data ++ ')' :: (b.data ++ [':', ' '])))) ++ M.data := by simp
      rw [e, List.getLast?_append_of_ne_nil _ hM] at hc
      exact hc
  have hSc2 : ∀ c ∈ S.data, scopeChar c = true := by
    intro c hc
    obtain ⟨h1, h2, h3, h4⟩ := hSc c hc
    simp [scopeChar, h1, h2, h3, h4]
  have hMb : M.data.head? ≠ some ' ' := by
    intro e
    have := (hhead _ e).1
    revert this; decide
  have hMt : M.data.head? ≠ some '[' := fun e => (hhead _ e).2 rfl
  rw [changelog_eq_detMatch, hdata, htrim]
  unfold detMatch
  rw [scanWords_typeWord T hT _ (by simp)]
  simp only [scanScope_closed _ _ hSc2]
  have hlen : byteLen ('(' :: (S.data ++ [')'])) > 2 := by
    rw [byteLen_cons, byteLen_append]
    have := byteLen_pos hS
    have e1 : Char.utf8Size '(' = 1 := by decide
    have e2 : byteLen [')'] = 1 := by decide
    omega
  have hslice : sliceInner ('(' :: (S.data ++ [')'])) = S.data := by
    simp [sliceInner]
  rcases hb with rfl | rfl
  · have e0 : ("" : String).data ++ ':' :: ' ' :: M.data = ':' :: ' ' :: M.data := rfl
    simp only [e0]
    rw [scanOne_miss '!' _ (by simp)]
    simp only [scanOne_hit]
    have e1 : List.dropWhile blank (' ' :: M.data) = M.data := by
      rw [List.dropWhile_cons]; simp only [blank, beq_self_eq_true, if_true]
      exact dropWhile_blank_self _ hMb
    simp only [e1, scanTicket_miss _ hMt, dropWhile_blank_self _ hMb,
      scanMessage_self _ hM hlf, hM, if_false, hlen, if_true, hslice, toLower_typeWord T hT]
    simp [ToLower, byteLen]
  · have e0 : ("!" : String).data ++ ':' :: ' ' :: M.data = '!' :: ':' :: ' ' :: M.data := rfl
    simp only [e0]
    simp only [scanOne_hit]
    have e1 : List.dropWhile blank (' ' :: M.data) = M.data := by
      rw [List.dropWhile_cons]; simp only [blank, beq_self_eq_true, if_true]
      exact dropWhile_blank_self _ hMb
    simp only [e1, scanTicket_miss _ hMt, dropWhile_blank_self _ hMb,
      scanMessage_self _ hM hlf, hM, if_false, hlen, if_true, hslice, toLower_typeWord T hT]
    simp [ToLower, byteLen]

/-- C1 at the subject of the repository's first test case, and at a subject
whose scope has capitals, among them letters outside ASCII. -/
theorem C1_full_subject_witness :
    ChangelogFromCommitMessage "feat(app/subapp)!: message with breaking change"
        = some { Type_ := "feat", Scope := "app/subapp", Message := "message with breaking change",
                 Breaking := true, JiraTicket := "", Hash := none } ∧
      ChangelogFromCommitMessage "fix(ÄB/Ωmega API): Keep THIS case"
        = some { Type_ := "fix", Scope := "äb/ωmega api", Message := "Keep THIS case",
                 Breaking := false, JiraTicket := "", Hash := none } :=
  ⟨C1_full_subject "feat" "app/subapp" "!" "message with breaking change"
      (by decide) (by decide) (by decide) (Or.inr rfl) (by decide) (by decide) (by decide)
      (by decide),
    C1_full_subject "fix" "ÄB/Ωmega API" "" "Keep THIS case"
      (by decide) (by decide) (by decide) (Or.inl rfl) (by decide) (by decide) (by decide)
      (by decide)⟩

theorem detMatch_parts (T : String) (hT : T ∈ typeWords) (S P b c r : List Char)
    (hS : ∀ ch ∈ S, scopeChar ch = true) (hP : P = [] ∨ P = '(' :: (S ++ [')']))
    (hb : b = [] ∨ b = ['!']) (hc : c = [] ∨ c = [':'])
    (hr : ∀ ch ∈ r.head?, ch ≠ 'u' ∧ ch ≠ '(' ∧ ch ≠ '!' ∧ ch ≠ ':') :
    detMatch (T.data ++ (P ++ (b ++ (c ++ r))))
      = some { type := T.data, scope := P, breaking := b, separator := c,
               ticket := (scanTicket (r.dropWhile blank)).1,
               message := scanMessage ((scanTicket (r.dropWhile blank)).2.dropWhile blank) } := by
  have r1 : r.head? ≠ some 'u' := fun e => (hr _ e).1 rfl
  have r2 : r.head? ≠ some '(' := fun e => (hr _ e).2.1 rfl
  have r3 : r.head? ≠ some '!' := fun e => (hr _ e).2.2.1 rfl
  have r4 : r.head? ≠ some ':' := fun e => (hr _ e).2.2.2 rfl
  unfold detMatch
  rcases hP with rfl | rfl <;> rcases hb with rfl | rfl <;> rcases hc with rfl | rfl
  · rw [scanWords_typeWord T hT _ (by simpa using r1)]
    simp [scanScope_miss _ r2, scanOne_miss _ _ r3, scanOne_miss _ _ r4]
  · rw [scanWords_typeWord T hT _ (by simp)]
    simp [scanScope_miss, scanOne_miss, scanOne_hit]
  · rw [scanWords_typeWord T hT _ (by simp)]
    simp [scanScope_miss, scanOne_miss _ _ r4, scanOne_hit]
  · rw [scanWords_typeWord T hT _ (by simp)]
    simp [scanScope_miss, scanOne_hit]
  · rw [scanWords_typeWord T hT _ (by simp)]
    have e : '(' :: (S ++ [')']) ++ ([] ++ ([] ++ r)) = '(' :: (S ++ ')' :: r) := by simp
    rw [e]
    simp [scanScope_closed _ _ hS, scanOne_miss _ _ r3, scanOne_miss _ _ r4]
  · rw [scanWords_typeWord T hT _ (by simp)]
    have e : '(' :: (S ++ [')']) ++ ([] ++ ([':'] ++ r)) = '(' :: (S ++ ')' :: (':' :: r)) := by
      simp
    rw [e]
    simp [scanScope_closed _ _ hS, scanOne_miss, scanOne_hit]
  · rw [scanWords_typeWord T hT _ (by simp)]
    have e : '(' :: (S ++ [')']) ++ (['!'] ++ ([] ++ r)) = '(' :: (S ++ ')' :: ('!' :: r)) := by
      simp
    rw [e]
    simp [scanScope_closed _ _ hS, scanOne_miss _ _ r4, scanOne_hit]
  · rw [scanWords_typeWord T hT _ (by simp)]
    have e : '(' :: (S ++ [')']) ++ (['!'] ++ ([':'] ++ r))
        = '(' :: (S ++ ')' :: ('!' :: ':' :: r)) := by simp
    rw [e]
    simp [scanScope_closed _ _ hS, scanOne_hit]

/-- C2: the type token is matched case-sensitively. The subject `feat: x` is
parsed, while `Feat: x` and `FIX: x`, which differ from a parsed subject only
in the letter case of the type token, are rejected. -/
theorem C2_type_token_case_sensitive :
    ChangelogFromCommitMessage "feat: x"
        = some { Type_ := "feat", Scope := "", Message := "x", Breaking := false,
                 JiraTicket := "", Hash := none } ∧
      ChangelogFromCommitMessage "Feat: x" = none ∧
      ChangelogFromCommitMessage "fix: x"
        = some { Type_ := "fix", Scope := "", Message := "x", Breaking := false,
                 JiraTicket := "", Hash := none } ∧
      ChangelogFromCommitMessage "FIX: x" = none := by
  decide

/-- C3: the parentheses of an empty scope and a lone opening parenthesis are
stored: `feat(): msg` gives the scope `()` and `feat(msg` gives the scope `(`. -/
theorem C3_scope_delimiters_kept :
    ChangelogFromCommitMessage "feat(): msg"
        = some { Type_ := "feat", Scope := "()", Message := "msg", Breaking := false,
                 JiraTicket := "", Hash := none } ∧
      ChangelogFromCommitMessage "feat(msg"
        = some { Type_ := "feat", Scope := "(", Message := "msg", Breaking := false,
                 JiraTicket := "", Hash := none } := by
  decide

theorem scanTicket_hit (U D r : List Char) (hU : 2 ≤ U.length)
    (hUu : ∀ c ∈ U, upperAZ c = true) (hD : 1 ≤ D.length) (hDd : ∀ c ∈ D, digit09 c = true) :
    scanTicket ('[' :: (U ++ '-' :: (D ++ ']' :: r))) = ('[' :: (U ++ '-' :: (D ++ [']'])), r) := by
  rcases U with _ | ⟨a, _ | ⟨b, U⟩⟩
  · simp at hU
  · simp at hU
  · rcases D with _ | ⟨d, D⟩
    · simp at hD
    · have ha : upperAZ a = true := hUu a (by simp)
      have hb : upperAZ b = true := hUu b (by simp)
      have hU2 : ∀ c ∈ U, upperAZ c = true := fun c hc => hUu c (by simp [hc])
      have hd : digit09 d = true := hDd d (by simp)
      have hD2 : ∀ c ∈ D, digit09 c = true := fun c hc => hDd c (by simp [hc])
      have h1 : (U ++ '-' :: d :: (D ++ ']' :: r)).dropWhile upperAZ
          = '-' :: d :: (D ++ ']' :: r) := by
        rw [List.dropWhile_append_of_pos hU2]
        exact List.dropWhile_cons_of_neg (by decide)
      have h2 : (U ++ '-' :: d :: (D ++ ']' :: r)).takeWhile upperAZ = U := by
        rw [List.takeWhile_append_of_pos hU2, List.takeWhile_cons_of_neg (by decide)]
        simp
      have h3 : (D ++ ']' :: r).dropWhile digit09 = ']' :: r := by
        rw [List.dropWhile_append_of_pos hD2]
        exact List.dropWhile_cons_of_neg (by decide)
      have h4 : (D ++ ']' :: r).takeWhile digit09 = D := by
        rw [List.takeWhile_append_of_pos hD2, List.takeWhile_cons_of_neg (by decide)]
        simp
      simp [scanTicket, scanTicketBody, ha, hb, hd, h1, h2, h3, h4]

theorem rdropWhile_append_replicate (Y : List Char) (n : Nat) :
    (Y ++ List.replicate n ' ').rdropWhile isSpace = Y.rdropWhile isSpace := by
  induction n with
  | zero => simp
  | succ n ih =>
    rw [List.replicate_succ', ← List.append_assoc, List.rdropWhile_concat_pos _ _ _ (by decide)]
    exact ih

theorem trim_append_spaces (Y : List Char) (n : Nat) (hY : Y ≠ [])
    (h1 : ∀ c ∈ Y.head?, isSpace c = false) (h2 : ∀ c ∈ Y.getLast?, isSpace c = false) :
    trimSpaceRunes (Y ++ List.replicate n ' ') = Y := by
  have e := trim_eq_self Y h1 h2
  unfold trimSpaceRunes at e ⊢
  cases Y with
  | nil => exact absurd rfl hY
  | cons a t =>
    have ha : isSpace a = false := h1 a rfl
    have e1 : (a :: t ++ List.replicate n ' ').dropWhile isSpace = a :: t ++ List.replicate n ' ' := by
      simp [List.dropWhile_cons, ha]
    have e2 : (a :: t).dropWhile isSpace = a :: t := by
      simp [List.dropWhile_cons, ha]
    rw [e1, rdropWhile_append_replicate]
    rw [e2] at e
    exact e

theorem dropWhile_blank_replicate (n : Nat) (x : List Char) :
    (List.replicate n ' ' ++ x).dropWhile blank = x.dropWhile blank := by
  rw [List.dropWhile_append_of_pos]
  intro a ha
  rw [List.eq_of_mem_replicate ha]
  rfl

theorem typeWord_last (T : String) (hT : T ∈ typeWords) :
    ∃ t z, T.data = t ++ [z] ∧ isSpace z = false := by
  simp only [typeWords, List.mem_cons, List.mem_singleton, List.not_mem_nil, or_false] at hT
  rcases hT with rfl | rfl | rfl | rfl | rfl | rfl | rfl | rfl | rfl | rfl
  · exact ⟨"featur".data, 'e', rfl, by decide⟩
  · exact ⟨"fea".data, 't', rfl, by decide⟩
  · exact ⟨"fi".data, 'x', rfl, by decide⟩
  · exact ⟨"doc".data, 's', rfl, by decide⟩
  · exact ⟨"styl".data, 'e', rfl, by decide⟩
  · exact ⟨"refacto".data, 'r', rfl, by decide⟩
  · exact ⟨"tes".data, 't', rfl, by decide⟩
  · exact ⟨"chor".data, 'e', rfl, by decide⟩
  · exact ⟨"enhanc".data, 'e', rfl, by decide⟩
  · exact ⟨"confi".data, 'g', rfl, by decide⟩

theorem prefix_last_not_space (T : String) (hT : T ∈ typeWords) (S P b c : List Char)
    (hP : P = [] ∨ P = '(' :: (S ++ [')']))
    (hb : b = [] ∨ b = ['!']) (hc : c = [] ∨ c = [':']) :
    ∀ ch ∈ (T.data ++ (P ++ (b ++ c))).getLast?, isSpace ch = false := by
  obtain ⟨t, z, hz, hzs⟩ := typeWord_last T hT
  intro ch hch
  rcases hP with rfl | rfl <;> rcases hb with rfl | rfl <;> rcases hc with rfl | rfl
  · simp [hz] at hch; subst hch; exact hzs
  · rw [show T.data ++ ([] ++ ([] ++ [':'])) = T.data ++ [':'] from rfl,
      List.getLast?_append_of_ne_nil _ (by simp)] at hch
    simp at hch; subst hch; decide
  · rw [show T.data ++ ([] ++ (['!'] ++ [])) = T.data ++ ['!'] from rfl,
      List.getLast?_append_of_ne_nil _ (by simp)] at hch
    simp at hch; subst hch; decide
  · rw [show T.data ++ ([] ++ (['!'] ++ [':'])) = (T.data ++ ['!']) ++ [':'] by simp,
      List.getLast?_append_of_ne_nil _ (by simp)] at hch
    simp at hch; subst hch; decide
  · rw [show T.data ++ ('(' :: (S ++ [')']) ++ ([] ++ [])) = (T.data ++ '(' :: S) ++ [')'] by simp,
      List.getLast?_append_of_ne_nil _ (by simp)] at hch
    simp at hch; subst hch; decide
  · rw [show T.data ++ ('(' :: (S ++ [')']) ++ ([] ++ [':']))
        = (T.data ++ '(' :: (S ++ [')'])) ++ [':'] by simp,
      List.getLast?_append_of_ne_nil _ (by simp)] at hch
    simp at hch; subst hch; decide
  · rw [show T.data ++ ('(' :: (S ++ [')']) ++ (['!'] ++ []))
        = (T.data ++ '(' :: (S ++ [')'])) ++ ['!'] by simp,
      List.getLast?_append_of_ne_nil _ (by simp)] at hch
    simp at hch; subst hch; decide
  · rw [show T.data ++ ('(' :: (S ++ [')']) ++ (['!'] ++ [':']))
        = (T.data ++ '(' :: (S ++ [')']) ++ ['!']) ++ [':'] by simp,
      List.getLast?_append_of_ne_nil _ (by simp)] at hch
    simp at hch; subst hch; decide

theorem changelog_message_ne (s : String) (e : Changelog)
    (h : ChangelogFromCommitMessage s = some e) : e.Message.data ≠ [] := by
  rw [changelog_eq_detMatch] at h
  cases hd : detMatch (trimSpaceRunes s.data) with
  | none => rw [hd] at h; simp at h
  | some r =>
    rw [hd] at h
    simp only at h
    by_cases hm : r.message = []
    · rw [if_pos hm] at h; simp at h
    · rw [if_neg hm] at h
      simp only [Option.some.injEq] at h
      rw [← h]
      exact hm

theorem changelog_none_of_message_nil (s : String)
    (h : ∀ r, detMatch (trimSpaceRunes s.data) = some r → r.message = []) :
    ChangelogFromCommitMessage s = none := by
  rw [changelog_eq_detMatch]
  cases hd : detMatch (trimSpaceRunes s.data) with
  | none => rfl
  | some r => simp [h r hd]

/-- C4: an entry returned by the parser has a non-empty message, and a subject
made only of prefix components (type word, optional scope `(S)`, optional `!`,
optional `:`, spaces, optional ticket `[U-D]`) with nothing after them is
rejected. -/
theorem C4_message_required :
    (∀ (s : String) (e : Changelog), ChangelogFromCommitMessage s = some e → e.Message ≠ "") ∧
    (∀ (T S P b c U D K : String) (n : Nat), T ∈ typeWords →
      (∀ ch ∈ S.data, ch ≠ '(' ∧ ch ≠ ')' ∧ ch ≠ '\r' ∧ ch ≠ '\n') →
      (P = "" ∨ P = "(" ++ S ++ ")") → (b = "" ∨ b = "!") → (c = "" ∨ c = ":") →
      2 ≤ U.data.length → (∀ ch ∈ U.data, upperAZ ch = true) →
      1 ≤ D.data.length → (∀ ch ∈ D.data, digit09 ch = true) →
      (K = "" ∨ K = "[" ++ U ++ "-" ++ D ++ "]") →
      ChangelogFromCommitMessage (T ++ P ++ b ++ c ++ ⟨List.replicate n ' '⟩ ++ K) = none) := by
  constructor
  · intro s e h he
    apply changelog_message_ne s e h
    rw [he]
  · intro T S P b c U D K n hT hS hP hb hc hU hUu hD hDd hK
    have hS2 : ∀ ch ∈ S.data, scopeChar ch = true := by
      intro ch h
      obtain ⟨h1, h2, h3, h4⟩ := hS ch h
      simp [scopeChar, h1, h2, h3, h4]
    have hP2 : P.data = [] ∨ P.data = '(' :: (S.data ++ [')']) := by
      rcases hP with rfl | rfl
      · exact Or.inl rfl
      · exact Or.inr (by simp [String.data_append])
    have hb2 : b.data = [] ∨ b.data = ['!'] := by
      rcases hb with rfl | rfl
      · exact Or.inl rfl
      · exact Or.inr rfl
    have hc2 : c.data = [] ∨ c.data = [':'] := by
      rcases hc with rfl | rfl
      · exact Or.inl rfl
      · exact Or.inr rfl
    obtain ⟨a, t, hTd, ha⟩ := typeWord_head T hT
    have hhead : ∀ (X : List Char), ∀ ch ∈ (T.data ++ X).head?, isSpace ch = false := by
      intro X ch hch
      rw [hTd] at hch
      simp at hch
      rw [← hch]; exact ha
    apply changelog_none_of_message_nil
    intro r hr
    rcases hK with rfl | rfl
    · have hdata : (T ++ P ++ b ++ c ++ (⟨List.replicate n ' '⟩ : String) ++ "").data
          = (T.data ++ (P.data ++ (b.data ++ c.data))) ++ List.replicate n ' ' := by
        simp [String.data_append]
      rw [hdata, trim_append_spaces _ _ (by simp [hTd]) (hhead _)
        (prefix_last_not_space T hT _ _ _ _ hP2 hb2 hc2)] at hr
      have e : T.data ++ (P.data ++ (b.data ++ c.data))
          = T.data ++ (P.data ++ (b.data ++ (c.data ++ []))) := by simp
      rw [e, detMatch_parts T hT S.data _ _ _ [] hS2 hP2 hb2 hc2 (by simp)] at hr
      simp only [Option.some.injEq] at hr
      rw [← hr]
      rfl
    · have hdata : (T ++ P ++ b ++ c ++ (⟨List.replicate n ' '⟩ : String)
            ++ ("[" ++ U ++ "-" ++ D ++ "]")).data
          = T.data ++ (P.data ++ (b.data ++ (c.data ++
              (List.replicate n ' ' ++ '[' :: (U.data ++ '-' :: (D.data ++ ']' :: [])))))) := by
        simp [String.data_append]
      have htrim : trimSpaceRunes (T.data ++ (P.data ++ (b.data ++ (c.data ++
              (List.replicate n ' ' ++ '[' :: (U.data ++ '-' :: (D.data ++ ']' :: [])))))))
          = T.data ++ (P.data ++ (b.data ++ (c.data ++
              (List.replicate n ' ' ++ '[' :: (U.data ++ '-' :: (D.data ++ ']' :: [])))))) := by
        apply trim_eq_self
        · exact hhead _
        · intro ch hch
          have e : T.data ++ (P.data ++ (b.data ++ (c.data ++
              (List.replicate n ' ' ++ '[' :: (U.data ++ '-' :: (D.data ++ ']' :: []))))))
              = (T.data ++ (P.data ++ (b.data ++ (c.data ++
              (List.replicate n ' ' ++ '[' :: (U.data ++ '-' :: D.data)))))) ++ [']'] := by simp
          rw [e, List.getLast?_append_of_ne_nil _ (by simp)] at hch
          simp at hch; subst hch; decide
      rw [hdata, htrim] at hr
      rw [detMatch_parts T hT S.data _ _ _ _ hS2 hP2 hb2 hc2] at hr
      · simp only [Option.some.injEq] at hr
        rw [← hr]
        have e1 : List.dropWhile blank
            (List.replicate n ' ' ++ '[' :: (U.data ++ '-' :: (D.data ++ [']'])))
            = '[' :: (U.data ++ '-' :: (D.data ++ [']'])) := by
          rw [dropWhile_blank_replicate]
          exact dropWhile_blank_self _ (by simp)
        simp only [e1, scanTicket_hit _ _ [] hU hUu hD hDd]
        rfl
      · intro ch hch
        cases n with
        | zero => simp at hch; subst hch; decide
        | succ n => simp [List.replicate_succ] at hch; subst hch; decide

/-- C4 at the subject `feat: [ABC-123]`, which ends after its ticket. -/
theorem C4_message_required_witness :
    ChangelogFromCommitMessage
      ("feat" ++ "" ++ "" ++ ":" ++ ⟨List.replicate 1 ' '⟩ ++ ("[" ++ "ABC" ++ "-" ++ "123" ++ "]"))
      = none :=
  C4_message_required.2 "feat" "" "" "" ":" "ABC" "123" ("[" ++ "ABC" ++ "-" ++ "123" ++ "]") 1
    (by decide) (by decide) (Or.inl rfl) (Or.inl rfl) (Or.inr rfl) (by decide) (by decide)
    (by decide) (by decide) (Or.inr rfl)

theorem scanOne_suffix (ch : Char) (s : List Char) : (scanOne ch s).2 <:+ s := by
  cases s with
  | nil => exact List.suffix_refl _
  | cons a t =>
    by_cases h : a = ch
    · simp [scanOne, h]
    · simp [scanOne, h]

theorem scanScope_suffix (s : List Char) : (scanScope s).2 <:+ s := by
  cases s with
  | nil => exact List.suffix_refl _
  | cons a t =>
    by_cases h : a = '('
    · simp only [scanScope, h, if_true]
      have hd := List.dropWhile_suffix (l := t) scopeChar
      cases hr : t.dropWhile scopeChar with
      | nil => simp
      | cons b r =>
        rw [hr] at hd
        by_cases hb : b = ')'
        · simp only [hb, if_true]
          exact ((List.suffix_cons _ _).trans (hb ▸ hd)).trans (List.suffix_cons _ _)
        · simp [hb]
    · simp [scanScope, h]

theorem scanTicket_suffix (s : List Char) : (scanTicket s).2 <:+ s := by
  cases s with
  | nil => exact List.suffix_refl _
  | cons a t =>
    by_cases h : a = '['
    · simp only [scanTicket, h, if_true]
      cases hb : scanTicketBody t with
      | none => simp
      | some p =>
        have e := scanTicketBody_eq hb
        simp only
        have h2 : p.2 <:+ t := by rw [e]; exact List.suffix_append _ _
        exact h2.trans (List.suffix_cons _ _)
    · simp [scanTicket, h]

theorem detMatch_some {s : List Char} {r : Caps} (h : detMatch s = some r) :
    (∃ w ∈ typeWords, r.type = w.data ∧ w.data <+: s) ∧
    (∃ x, x <:+ s ∧ r.message = scanMessage (x.dropWhile blank)) := by
  unfold detMatch at h
  cases hw : scanWords typeWords s with
  | none => rw [hw] at h; simp at h
  | some p =>
    obtain ⟨ty, r1⟩ := p
    rw [hw] at h
    simp only [Option.some.injEq] at h
    obtain ⟨e, w, hwm, hwd⟩ := scanWords_eq hw
    simp only at e hwd
    constructor
    · refine ⟨w, hwm, ?_, ?_⟩
      · rw [← h]; exact hwd
      · rw [← hwd, e]; exact List.prefix_append _ _
    · refine ⟨_, ?_, by rw [← h]⟩
      have s1 : r1 <:+ s := by rw [e]; exact List.suffix_append _ _
      have s2 := scanScope_suffix r1
      have s3 := scanOne_suffix '!' (scanScope r1).2
      have s4 := scanOne_suffix ':' (scanOne '!' (scanScope r1).2).2
      have s5 := List.dropWhile_suffix (l := (scanOne ':' (scanOne '!' (scanScope r1).2).2).2) blank
      have s6 := scanTicket_suffix
        (List.dropWhile blank (scanOne ':' (scanOne '!' (scanScope r1).2).2).2)
      exact ((((s6.trans s5).trans s4).trans s3).trans s2).trans s1

/-- C5 (as stated) fails: the leading token of `fixes bug` is `fixes`, which is
not a type word, and the subject is parsed with type `fix`. -/
theorem C5_leading_token_counterexample :
    leadingToken "fixes bug" = "fixes".data ∧ "fixes" ∉ typeWords ∧
      ChangelogFromCommitMessage "fixes bug"
        = some { Type_ := "fix", Scope := "", Message := "es bug", Breaking := false,
                 JiraTicket := "", Hash := none } := by
  decide

theorem typeWords_no_tokenEnd : ∀ w ∈ typeWords, ∀ c ∈ w.data, (!isTokenEnd c) = true := by
  decide

/-- C5 (amended): a subject whose leading token does not begin with one of the
ten type words is rejected. -/
theorem C5_no_type_prefix_rejected (s : String)
    (h : ∀ w ∈ typeWords, ¬ w.data <+: leadingToken s) :
    ChangelogFromCommitMessage s = none := by
  rw [changelog_eq_detMatch]
  cases hd : detMatch (trimSpaceRunes s.data) with
  | none => rfl
  | some r =>
    exfalso
    obtain ⟨⟨w, hw, -, hpre⟩, -⟩ := detMatch_some hd
    apply h w hw
    obtain ⟨t, ht⟩ := hpre
    unfold leadingToken
    rw [← ht, List.takeWhile_append_of_pos (typeWords_no_tokenEnd w hw)]
    exact List.prefix_append _ _

/-- C5 (amended) at the subject `randomtext without grammar`. -/
theorem C5_no_type_prefix_rejected_witness :
    ChangelogFromCommitMessage "randomtext without grammar" = none :=
  C5_no_type_prefix_rejected "randomtext without grammar" (by decide)

theorem trim_prefix_message (T : String) (hT : T ∈ typeWords) (X M : List Char) (hM : M ≠ [])
    (hlast : ∀ c ∈ M.getLast?, isSpace c = false) :
    trimSpaceRunes (T.data ++ (X ++ M)) = T.data ++ (X ++ M) := by
  obtain ⟨a, t, hTd, ha⟩ := typeWord_head T hT
  apply trim_eq_self
  · intro c hc
    rw [hTd] at hc
    simp at hc
    rw [← hc]; exact ha
  · intro c hc
    rw [← List.append_assoc, List.getLast?_append_of_ne_nil _ hM] at hc
    exact hlast c hc

theorem dropWhile_blank_cons_blank (M : List Char) (h : M.head? ≠ some ' ') :
    List.dropWhile blank (' ' :: M) = M := by
  rw [List.dropWhile_cons]
  simp only [blank, beq_self_eq_true, if_true]
  exact dropWhile_blank_self _ h

/-- C6: the `:` separator is optional. For a type word `T`, a scope part `P`
that is empty or `(S)`, a marker `b` that is empty or `!`, and a non-empty
message `M` without outer white space, the subject `T P b M` with only a space
before the message parses exactly as `T P b: M`; and when `M` has no line feed
and does not start with `[`, both are parsed to the entry of type `T`, message
`M`, breaking iff `b` is `!`, without ticket, whose scope is the lower-cased
`S` (the lower-cased `P` itself when `P` or `S` is empty). -/
theorem C6_separator_optional (T S P b M : String) (hT : T ∈ typeWords)
    (hS : ∀ ch ∈ S.data, ch ≠ '(' ∧ ch ≠ ')' ∧ ch ≠ '\r' ∧ ch ≠ '\n')
    (hP : P = "" ∨ P = "(" ++ S ++ ")") (hb : b = "" ∨ b = "!")
    (hM : M.data ≠ []) (hlast : ∀ c ∈ M.data.getLast?, isSpace c = false) :
    ChangelogFromCommitMessage (T ++ P ++ b ++ " " ++ M)
        = ChangelogFromCommitMessage (T ++ P ++ b ++ ": " ++ M) ∧
      ('\n' ∉ M.data → (∀ c ∈ M.data.head?, isSpace c = false ∧ c ≠ '[') →
        ChangelogFromCommitMessage (T ++ P ++ b ++ " " ++ M)
          = some { Type_ := T, Scope := ToLower (if P = "" ∨ S = "" then P else S),
                   Message := M, Breaking := b == "!", JiraTicket := "", Hash := none }) := by
  have hS2 : ∀ ch ∈ S.data, scopeChar ch = true := by
    intro ch h
    obtain ⟨h1, h2, h3, h4⟩ := hS ch h
    simp [scopeChar, h1, h2, h3, h4]
  have hP2 : P.data = [] ∨ P.data = '(' :: (S.data ++ [')']) := by
    rcases hP with rfl | rfl
    · exact Or.inl rfl
    · exact Or.inr (by simp [String.data_append])
  have hb2 : b.data = [] ∨ b.data = ['!'] := by
    rcases hb with rfl | rfl
    · exact Or.inl rfl
    · exact Or.inr rfl
  have d1 : (T ++ P ++ b ++ " " ++ M).data
      = T.data ++ ((P.data ++ (b.data ++ ([] ++ [' ']))) ++ M.data) := by
    simp [String.data_append]
  have d2 : (T ++ P ++ b ++ ": " ++ M).data
      = T.data ++ ((P.data ++ (b.data ++ ([':'] ++ [' ']))) ++ M.data) := by
    simp [String.data_append]
  have e1 : T.data ++ ((P.data ++ (b.data ++ ([] ++ [' ']))) ++ M.data)
      = T.data ++ (P.data ++ (b.data ++ ([] ++ ' ' :: M.data))) := by simp
  have e2 : T.data ++ ((P.data ++ (b.data ++ ([':'] ++ [' ']))) ++ M.data)
      = T.data ++ (P.data ++ (b.data ++ ([':'] ++ ' ' :: M.data))) := by simp
  constructor
  · rw [changelog_eq_detMatch, changelog_eq_detMatch, d1, d2,
      trim_prefix_message T hT _ _ hM hlast, trim_prefix_message T hT _ _ hM hlast, e1, e2,
      detMatch_parts T hT S.data _ _ [] _ hS2 hP2 hb2 (Or.inl rfl) (by simp),
      detMatch_parts T hT S.data _ _ [':'] _ hS2 hP2 hb2 (Or.inr rfl) (by simp)]
  · intro hlf hhead
    have hMb : M.data.head? ≠ some ' ' := by
      intro e
      exact absurd (hhead _ e).1 (by decide)
    have hMt : M.data.head? ≠ some '[' := fun e => (hhead _ e).2 rfl
    rw [changelog_eq_detMatch, d1, trim_prefix_message T hT _ _ hM hlast, e1,
      detMatch_parts T hT S.data _ _ [] _ hS2 hP2 hb2 (Or.inl rfl) (by simp)]
    simp only [dropWhile_blank_cons_blank _ hMb, scanTicket_miss _ hMt,
      dropWhile_blank_self _ hMb, scanMessage_self _ hM hlf, hM, if_false,
      toLower_typeWord T hT]
    have hbr : (b.data == ['!']) = (b == "!") := by
      rcases hb with rfl | rfl <;> decide
    have hscope : (⟨if byteLen P.data > 2 then sliceInner P.data else P.data⟩ : String)
        = (if P = "" ∨ S = "" then P else S) := by
      rcases hP with rfl | rfl
      · simp [byteLen]
      · by_cases hSe : S.data = []
        · have hS0 : S = "" := String.ext hSe
          subst hS0
          decide
        · have hS0 : ¬ S = "" := fun h => hSe (by rw [h])
          have hP0 : ¬ ("(" ++ S ++ ")" : String) = "" := by
            intro h
            have := congrArg String.data h
            simp [String.data_append] at this
          have hd : ("(" ++ S ++ ")" : String).data = '(' :: (S.data ++ [')']) := by
            simp [String.data_append]
          have hlen : byteLen ('(' :: (S.data ++ [')'])) > 2 := by
            rw [byteLen_cons, byteLen_append]
            have := byteLen_pos hSe
            have e3 : Char.utf8Size '(' = 1 := by decide
            have e4 : byteLen [')'] = 1 := by decide
            omega
          have hslice : sliceInner ('(' :: (S.data ++ [')'])) = S.data := by
            simp [sliceInner]
          rw [hd]
          simp only [hlen, if_true, hslice, hS0, hP0, or_self, if_false]
    have hticket : (⟨if byteLen ([] : List Char) > 2 then sliceInner [] else []⟩ : String)
        = "" := by decide
    rw [hbr, hscope, hticket]

/-- C6 at the subject of the repository's test case without separator: it is
parsed as with the separator, to the entry of the test. -/
theorem C6_separator_optional_witness :
    ChangelogFromCommitMessage "feat(adsol) message with no separator"
        = ChangelogFromCommitMessage "feat(adsol): message with no separator" ∧
      ChangelogFromCommitMessage "feat(adsol) message with no separator"
        = some { Type_ := "feat", Scope := "adsol", Message := "message with no separator",
                 Breaking := false, JiraTicket := "", Hash := none } :=
  ⟨(C6_separator_optional "feat" "adsol" ("(" ++ "adsol" ++ ")") ""
      "message with no separator"
      (by decide) (by decide) (Or.inr rfl) (Or.inl rfl) (by decide) (by decide)).1,
    (C6_separator_optional "feat" "adsol" ("(" ++ "adsol" ++ ")") ""
      "message with no separator"
      (by decide) (by decide) (Or.inr rfl) (Or.inl rfl) (by decide) (by decide)).2
      (by decide) (by decide)⟩

/-- C7: after `T: ` a bracketed key of two or more capitals, a hyphen and one
or more digits is taken as the ticket, brackets stripped, and the message is
what follows; with a single capital before the hyphen there is no ticket and
the bracketed text stays at the head of the message. -/
theorem C7_ticket_key (T U D M : String) (hT : T ∈ typeWords)
    (hUu : ∀ c ∈ U.data, upperAZ c = true)
    (hD : 1 ≤ D.data.length) (hDd : ∀ c ∈ D.data, digit09 c = true)
    (hM : M.data ≠ []) (hlf : '\n' ∉ M.data)
    (hhead : ∀ c ∈ M.data.head?, isSpace c = false)
    (hlast : ∀ c ∈ M.data.getLast?, isSpace c = false) :
    (2 ≤ U.data.length →
      ChangelogFromCommitMessage (T ++ ": [" ++ (U ++ "-" ++ D) ++ "] " ++ M)
        = some { Type_ := T, Scope := "", Message := M, Breaking := false,
                 JiraTicket := U ++ "-" ++ D, Hash := none }) ∧
    (U.data.length = 1 →
      ChangelogFromCommitMessage (T ++ ": [" ++ (U ++ "-" ++ D) ++ "] " ++ M)
        = some { Type_ := T, Scope := "", Message := "[" ++ (U ++ "-" ++ D) ++ "] " ++ M,
                 Breaking := false, JiraTicket := "", Hash := none }) := by
  have hMb : M.data.head? ≠ some ' ' := by
    intro e
    have := hhead _ e
    revert this; decide
  have d : (T ++ ": [" ++ (U ++ "-" ++ D) ++ "] " ++ M).data
      = T.data ++ ((':' :: ' ' :: '[' :: (U.data ++ '-' :: (D.data ++ [']', ' ']))) ++ M.data) := by
    simp [String.data_append]
  have e : T.data ++ ((':' :: ' ' :: '[' :: (U.data ++ '-' :: (D.data ++ [']', ' ']))) ++ M.data)
      = T.data ++ ([] ++ ([] ++ ([':'] ++
          (' ' :: '[' :: (U.data ++ '-' :: (D.data ++ ']' :: ' ' :: M.data)))))) := by simp
  have hscan := detMatch_parts T hT [] [] [] [':']
    (' ' :: '[' :: (U.data ++ '-' :: (D.data ++ ']' :: ' ' :: M.data)))
    (by simp) (Or.inl rfl) (Or.inl rfl) (Or.inr rfl) (by simp)
  have hdrop : List.dropWhile blank
      (' ' :: '[' :: (U.data ++ '-' :: (D.data ++ ']' :: ' ' :: M.data)))
      = '[' :: (U.data ++ '-' :: (D.data ++ ']' :: ' ' :: M.data)) :=
    dropWhile_blank_cons_blank _ (by simp)
  rw [changelog_eq_detMatch, d, trim_prefix_message T hT _ _ hM hlast, e, hscan, hdrop]
  constructor
  · intro hU
    rw [scanTicket_hit _ _ _ hU hUu hD hDd]
    simp only [dropWhile_blank_cons_blank _ hMb, scanMessage_self _ hM hlf, hM, if_false]
    have hlen : byteLen ('[' :: (U.data ++ '-' :: (D.data ++ [']']))) > 2 := by
      rw [byteLen_cons, byteLen_append, byteLen_cons, byteLen_append]
      have e1 : Char.utf8Size '[' = 1 := by decide
      have e2 : Char.utf8Size '-' = 1 := by decide
      have e3 : byteLen [']'] = 1 := by decide
      omega
    have hslice : sliceInner ('[' :: (U.data ++ '-' :: (D.data ++ [']'])))
        = U.data ++ '-' :: D.data := by
      have e4 : U.data ++ '-' :: (D.data ++ [']']) = (U.data ++ '-' :: D.data) ++ [']'] := by
        simp
      simp only [sliceInner, List.drop_succ_cons, List.drop_zero]
      rw [e4, List.dropLast_concat]
    simp only [hlen, if_true, hslice, toLower_typeWord T hT]
    have hk : (⟨U.data ++ '-' :: D.data⟩ : String) = U ++ "-" ++ D := by
      apply String.ext
      simp [String.data_append]
    rw [hk]
    rfl
  · intro hU
    obtain ⟨u, hu⟩ := List.length_eq_one.mp hU
    have hup : upperAZ u = true := hUu u (by rw [hu]; simp)
    have hmiss : scanTicket ('[' :: (U.data ++ '-' :: (D.data ++ ']' :: ' ' :: M.data)))
        = ([], '[' :: (U.data ++ '-' :: (D.data ++ ']' :: ' ' :: M.data))) := by
      rw [hu]
      have hm : upperAZ '-' = false := by decide
      simp [scanTicket, scanTicketBody, hup, hm]
    have hne : '[' :: (U.data ++ '-' :: (D.data ++ ']' :: ' ' :: M.data)) ≠ [] := by simp
    have hlf2 : '\n' ∉ '[' :: (U.data ++ '-' :: (D.data ++ ']' :: ' ' :: M.data)) := by
      intro hmem
      simp only [List.mem_cons, List.mem_append] at hmem
      rcases hmem with h | h | h | h | h | h | h
      · revert h; decide
      · have := hUu _ h; revert this; decide
      · revert h; decide
      · have := hDd _ h; revert this; decide
      · revert h; decide
      · revert h; decide
      · exact hlf h
    rw [hmiss]
    simp only [dropWhile_blank_self _ (show ('[' :: (U.data ++ '-' ::
      (D.data ++ ']' :: ' ' :: M.data))).head? ≠ some ' ' by simp),
      scanMessage_self _ hne hlf2, hne, if_false, toLower_typeWord T hT]
    have hk : (⟨'[' :: (U.data ++ '-' :: (D.data ++ ']' :: ' ' :: M.data))⟩ : String)
        = "[" ++ (U ++ "-" ++ D) ++ "] " ++ M := by
      apply String.ext
      simp [String.data_append]
    rw [hk]
    rfl

/-- C7 at `feat: [ABC-123] add login` (ticket taken) and at
`feat: [A-1] add login` (no ticket). -/
theorem C7_ticket_key_witness :
    ChangelogFromCommitMessage "feat: [ABC-123] add login"
        = some { Type_ := "feat", Scope := "", Message := "add login", Breaking := false,
                 JiraTicket := "ABC-123", Hash := none } ∧
      ChangelogFromCommitMessage "feat: [A-1] add login"
        = some { Type_ := "feat", Scope := "", Message := "[A-1] add login", Breaking := false,
                 JiraTicket := "", Hash := none } :=
  ⟨(C7_ticket_key "feat" "ABC" "123" "add login" (by decide) (by decide) (by decide)
      (by decide) (by decide) (by decide) (by decide) (by decide)).1 (by decide),
   (C7_ticket_key "feat" "A" "1" "add login" (by decide) (by decide) (by decide)
      (by decide) (by decide) (by decide) (by decide) (by decide)).2 (by decide)⟩

theorem changelog_some {s : String} {e : Changelog}
    (h : ChangelogFromCommitMessage s = some e) :
    ∃ r, detMatch (trimSpaceRunes s.data) = some r ∧ r.message ≠ [] ∧
      e = { Type_ := ToLower ⟨r.type⟩
            Scope := ToLower ⟨if byteLen r.scope > 2 then sliceInner r.scope else r.scope⟩
            Message := ⟨r.message⟩
            Breaking := r.breaking == ['!']
            JiraTicket := ⟨if byteLen r.ticket > 2 then sliceInner r.ticket else r.ticket⟩
            Hash := none } := by
  rw [changelog_eq_detMatch] at h
  cases hd : detMatch (trimSpaceRunes s.data) with
  | none => rw [hd] at h; simp at h
  | some r =>
    rw [hd] at h
    simp only at h
    by_cases hm : r.message = []
    · rw [if_pos hm] at h; simp at h
    · rw [if_neg hm] at h
      simp only [Option.some.injEq] at h
      exact ⟨r, rfl, hm, h.symm⟩

theorem message_shape {s : String} {e : Changelog}
    (h : ChangelogFromCommitMessage s = some e) :
    e.Message.data ≠ [] ∧ e.Message.data <:+ trimSpaceRunes s.data ∧
      ∃ x, e.Message.data = List.dropWhile blank x := by
  obtain ⟨r, hd, hm, he⟩ := changelog_some h
  obtain ⟨-, x, hx, hmsg⟩ := detMatch_some hd
  have hne : scanMessage (List.dropWhile blank x) ≠ [] := by rw [← hmsg]; exact hm
  have hself := scanMessage_eq_self hne
  have e1 : e.Message.data = List.dropWhile blank x := by
    rw [he]; simp only; rw [hmsg, hself]
  refine ⟨by rw [he]; exact hm, ?_, x, e1⟩
  rw [e1]
  exact (List.dropWhile_suffix blank).trans hx

/-- C8 (as stated) fails: `feat:` followed by a tab and `msg` is parsed with
a message that starts with the tab, a white space character. -/
theorem C8_leading_tab_counterexample :
    ChangelogFromCommitMessage "feat:\tmsg"
        = some { Type_ := "feat", Scope := "", Message := "\tmsg", Breaking := false,
                 JiraTicket := "", Hash := none } ∧
      "\tmsg".data.head? = some '\t' ∧ isSpace '\t' = true := by
  decide

/-- C8 (amended): the message of a returned entry has no trailing white space
and does not start with a space (U+0020). -/
theorem C8_message_edges (s : String) (e : Changelog)
    (h : ChangelogFromCommitMessage s = some e) :
    (∀ c ∈ e.Message.data.getLast?, isSpace c = false) ∧
      (∀ c ∈ e.Message.data.head?, c ≠ ' ') := by
  obtain ⟨hne, hsuf, x, hx⟩ := message_shape h
  constructor
  · intro c hc
    obtain ⟨pre, hpre⟩ := hsuf
    have hl : (trimSpaceRunes s.data).getLast? = some c := by
      rw [← hpre, List.getLast?_append_of_ne_nil _ hne]
      exact hc
    have hne2 : trimSpaceRunes s.data ≠ [] := by
      intro h0; rw [h0] at hl; simp at hl
    have hlast := List.rdropWhile_last_not isSpace (s.data.dropWhile isSpace) hne2
    have e2 : (trimSpaceRunes s.data).getLast hne2 = c := by
      have := List.getLast?_eq_getLast _ hne2
      rw [hl] at this
      exact (Option.some.inj this).symm
    unfold trimSpaceRunes at e2
    rw [e2] at hlast
    simpa using hlast
  · intro c hc hcs
    have hd := List.head?_dropWhile_not blank x
    rw [← hx, show e.Message.data.head? = some c from hc] at hd
    simp only at hd
    rw [hcs] at hd
    revert hd; decide

/-- C8 (amended) at the subject of the repository's first test case. -/
theorem C8_message_edges_witness :
    (∀ c ∈ "message with breaking change".data.getLast?, isSpace c = false) ∧
      (∀ c ∈ "message with breaking change".data.head?, c ≠ ' ') :=
  C8_message_edges "feat(app/subapp)!: message with breaking change"
    { Type_ := "feat", Scope := "app/subapp", Message := "message with breaking change",
      Breaking := true, JiraTicket := "", Hash := none } (by decide)

set_option maxRecDepth 100000 in
theorem tableOK_true : tableOK = true := by decide

theorem toNat_ofNat_valid (m : Nat) (h : m.isValidChar) : (Char.ofNat m).toNat = m := by
  simp [Char.ofNat, h, Char.ofNatAux, Char.toNat, UInt32.toNat]

theorem image_facts (r : Nat × Nat × Nat × Nat) (hr : r ∈ lowerRanges) (n : Nat)
    (hn : inRange r n = true) :
    (r.2.2.2 + (n - r.1)).isValidChar ∧
      ¬ (65 ≤ r.2.2.2 + (n - r.1) ∧ r.2.2.2 + (n - r.1) ≤ 90) ∧
      ∀ r2 ∈ lowerRanges, ¬ inRange r2 (r.2.2.2 + (n - r.1)) = true := by
  have hall := List.all_eq_true.mp tableOK_true r hr
  simp only [Bool.and_eq_true] at hall
  obtain ⟨himg, hapart⟩ := hall
  have hn2 := hn
  simp only [inRange, Bool.and_eq_true, decide_eq_true_eq] at hn2
  obtain ⟨⟨h1, h2⟩, -⟩ := hn2
  simp only [imageOK, Bool.and_eq_true, Bool.or_eq_true, decide_eq_true_eq] at himg
  obtain ⟨hv, ha⟩ := himg
  refine ⟨?_, ?_, ?_⟩
  · unfold Nat.isValidChar
    rcases hv with hv | ⟨hv1, hv2⟩
    · left; omega
    · right; omega
  · rcases ha with ha | ha <;> omega
  · intro r2 hr2 hin
    have hp := List.all_eq_true.mp hapart r2 hr2
    simp only [apartOK, Bool.or_eq_true, decide_eq_true_eq] at hp
    have hin2 := hin
    simp only [inRange, Bool.and_eq_true, decide_eq_true_eq] at hin2
    obtain ⟨⟨h3, h4⟩, -⟩ := hin2
    rcases hp with (hp | hp) | hp
    · omega
    · omega
    · have hd := List.all_eq_true.mp hp (n - r.1) (by rw [List.mem_range]; omega)
      have e1 : r.1 + (n - r.1) = n := by omega
      rw [e1, hn, hin] at hd
      exact absurd hd (by decide)

theorem toLowerCode_idem (n : Nat) : toLowerCode (toLowerCode n) = toLowerCode n := by
  by_cases h : n < 128
  · by_cases hu : 65 ≤ n ∧ n ≤ 90
    · have e : toLowerCode n = n + 32 := by simp [toLowerCode, h, hu]
      rw [e]
      have h2 : n + 32 < 128 := by omega
      have h3 : ¬ (65 ≤ n + 32 ∧ n + 32 ≤ 90) := by omega
      simp only [toLowerCode, h2, if_true, h3, if_false]
    · have e : toLowerCode n = n := by simp only [toLowerCode, h, if_true, hu, if_false]
      rw [e, e]
  · cases hf : lowerRanges.find? (fun r => inRange r n) with
    | none =>
      have e : toLowerCode n = n := by simp only [toLowerCode, h, if_false, hf]
      rw [e, e]
    | some r =>
      have e : toLowerCode n = r.2.2.2 + (n - r.1) := by
        simp only [toLowerCode, h, if_false, hf]
      obtain ⟨-, ha, hnone⟩ :=
        image_facts r (List.mem_of_find?_eq_some hf) n (List.find?_some (p := fun r => inRange r n) hf)
      rw [e]
      by_cases h2 : r.2.2.2 + (n - r.1) < 128
      · simp only [toLowerCode, h2, if_true, ha, if_false]
      · have hf2 : lowerRanges.find? (fun r2 => inRange r2 (r.2.2.2 + (n - r.1))) = none :=
          List.find?_eq_none.mpr hnone
        simp only [toLowerCode, h2, if_false, hf2]

theorem toLowerCode_valid (n : Nat) (hn : n.isValidChar) : (toLowerCode n).isValidChar := by
  by_cases h : n < 128
  · by_cases hu : 65 ≤ n ∧ n ≤ 90
    · have e : toLowerCode n = n + 32 := by simp [toLowerCode, h, hu]
      rw [e]; unfold Nat.isValidChar; left; omega
    · have e : toLowerCode n = n := by simp only [toLowerCode, h, if_true, hu, if_false]
      rw [e]; exact hn
  · cases hf : lowerRanges.find? (fun r => inRange r n) with
    | none =>
      have e : toLowerCode n = n := by simp only [toLowerCode, h, if_false, hf]
      rw [e]; exact hn
    | some r =>
      have e : toLowerCode n = r.2.2.2 + (n - r.1) := by
        simp only [toLowerCode, h, if_false, hf]
      rw [e]
      exact (image_facts r (List.mem_of_find?_eq_some hf) n (List.find?_some (p := fun r => inRange r n) hf)).1

theorem toLower_char_idem (c : Char) :
    unicodeToLower (unicodeToLower c) = unicodeToLower c := by
  have hv : c.toNat.isValidChar := c.valid
  unfold unicodeToLower
  rw [toNat_ofNat_valid _ (toLowerCode_valid _ hv), toLowerCode_idem]

theorem toLower_idem (s : String) : ToLower (ToLower s) = ToLower s := by
  apply String.ext
  simp only [ToLower, toLowerRunes, List.map_map]
  apply List.map_congr_left
  intro c _
  exact toLower_char_idem c

/-- C9: in a returned entry the type is one of the ten lower-case type words,
the scope is its own lower-casing, and the message is a suffix of the trimmed
subject, in its original letter case. -/
theorem C9_normalised (s : String) (e : Changelog)
    (h : ChangelogFromCommitMessage s = some e) :
    e.Type_ ∈ typeWords ∧ ToLower e.Scope = e.Scope ∧
      e.Message.data <:+ (TrimSpace s).data := by
  obtain ⟨r, hd, -, he⟩ := changelog_some h
  obtain ⟨⟨w, hw, hty, -⟩, -⟩ := detMatch_some hd
  refine ⟨?_, ?_, (message_shape h).2.1⟩
  · rw [he]
    simp only
    rw [hty, toLower_typeWord w hw]
    exact hw
  · rw [he]
    exact toLower_idem _

/-- C9 at the subject `fix(ÄPI Core): Keep CamelCase` with outer spaces, whose
scope has capitals, one of them outside ASCII. -/
theorem C9_normalised_witness :
    "fix" ∈ typeWords ∧ ToLower "äpi core" = "äpi core" ∧
      "Keep CamelCase".data <:+ (TrimSpace "  fix(ÄPI Core): Keep CamelCase ").data :=
  C9_normalised "  fix(ÄPI Core): Keep CamelCase "
    { Type_ := "fix", Scope := "äpi core", Message := "Keep CamelCase",
      Breaking := false, JiraTicket := "", Hash := none } (by decide)

/-! ### The keys of the grouping map -/

theorem keys_set {ν : Type} (m : GoMap ν) (k : String) (v : ν) :
    (m.set k v).keys = if k ∈ m.keys then m.keys else m.keys ++ [k] := by
  induction m with
  | nil => simp [GoMap.set, GoMap.keys]
  | cons p m ih =>
    obtain ⟨k1, v1⟩ := p
    simp only [GoMap.keys] at ih
    by_cases h : k1 = k
    · subst h
      simp [GoMap.set, GoMap.keys]
    · have h2 : ¬ k = k1 := fun e => h e.symm
      simp only [GoMap.set, h, if_false, GoMap.keys, List.map_cons, List.mem_cons, h2, false_or,
        ih]
      split <;> simp

theorem keysOk_set (c : ChangelogList) (g : Groups) (e : Changelog) (v : GoMap (List Changelog))
    (he : e ∈ c.included) (h : KeysOk c g) : KeysOk c (g.set e.Scope v) := by
  unfold KeysOk
  rw [keys_set]
  by_cases hk : e.Scope ∈ g.keys
  · rw [if_pos hk]; exact h
  · rw [if_neg hk]
    constructor
    · rw [List.nodup_append]
      refine ⟨h.1, List.nodup_singleton _, ?_⟩
      intro a ha hb
      rw [List.mem_singleton] at hb
      subst hb
      exact hk ha
    · intro k hk2
      rw [List.mem_append, List.mem_singleton] at hk2
      rcases hk2 with h3 | h3
      · exact h.2 k h3
      · exact ⟨e, he, h3.symm⟩

theorem keysOk_step (c : ChangelogList) (g g1 : Groups) (e : Changelog) (he : e ∈ c.changelogs)
    (h : KeysOk c g) (hs : groupStep c g e = .ok g1) : KeysOk c g1 := by
  unfold groupStep at hs
  cases ho : c.opt with
  | none => rw [ho] at hs; simp at hs
  | some opt =>
    rw [ho] at hs
    simp only at hs
    by_cases hf : opt.Scope ≠ "" ∧ e.Scope ≠ opt.Scope
    · rw [if_pos hf] at hs
      injection hs with hs
      rw [← hs]; exact h
    · rw [if_neg hf] at hs
      injection hs with hs
      have hinc : e ∈ c.included := by
        unfold ChangelogList.included
        rw [ho]
        simp only [List.mem_filter]
        refine ⟨he, ?_⟩
        simp only [Bool.not_eq_true', Bool.and_eq_false_iff, bne_eq_false_iff_eq]
        by_cases h1 : opt.Scope = ""
        · exact Or.inl h1
        · right
          by_contra h2
          exact hf ⟨h1, h2⟩
      rw [← hs]
      apply keysOk_set c _ e _ hinc
      split
      · exact keysOk_set c _ e _ hinc h
      · exact h

theorem keysOk_loop (c : ChangelogList) (l : List Changelog) (g g1 : Groups)
    (hl : ∀ e ∈ l, e ∈ c.changelogs) (h : KeysOk c g) (hs : groupLoop c g l = .ok g1) :
    KeysOk c g1 := by
  induction l generalizing g with
  | nil =>
    simp only [groupLoop] at hs
    injection hs with hs
    rw [← hs]; exact h
  | cons e rest ih =>
    simp only [groupLoop] at hs
    cases hstep : groupStep c g e with
    | error x => rw [hstep] at hs; simp at hs
    | ok g2 =>
      rw [hstep] at hs
      exact ih g2 (fun x hx => hl x (List.mem_cons_of_mem _ hx))
        (keysOk_step c g g2 e (hl e (List.mem_cons_self _ _)) h hstep) hs

theorem keysOk_groups (c : ChangelogList) (g : Groups)
    (h : groupByScopeAndCommitType c = .ok g) : KeysOk c g :=
  keysOk_loop c c.changelogs [] g (fun _ h => h) ⟨List.nodup_nil, by simp [GoMap.keys]⟩ h

theorem perm_eq_of_all_eq {l o : List String} (hn : l.Nodup)
    (h : ∀ a ∈ l, ∀ b ∈ l, a = b) (hp : o.Perm l) : o = l := by
  rcases l with _ | ⟨a, _ | ⟨b, l⟩⟩
  · exact List.perm_nil.mp hp
  · exact List.perm_singleton.mp hp
  · exfalso
    have hab : a = b := h a (by simp) b (by simp)
    rw [hab] at hn
    simp at hn

/-- C10 (as stated) fails: for the list of a `feat` entry of scope `a` followed by a
`fix` entry of scope `b`, the two orders in which `range` may visit the two
scopes give different reports. -/
theorem C10_two_scopes_counterexample :
    RangeOrder
        { changelogs := [⟨"feat", "a", "x", false, "", none⟩, ⟨"fix", "b", "y", false, "", none⟩],
          opt := some ⟨"", "https://jira"⟩ } ["a", "b"] ∧
      RangeOrder
        { changelogs := [⟨"feat", "a", "x", false, "", none⟩, ⟨"fix", "b", "y", false, "", none⟩],
          opt := some ⟨"", "https://jira"⟩ } ["b", "a"] ∧
      ChangelogList.FormatAsMarkdown
        { changelogs := [⟨"feat", "a", "x", false, "", none⟩, ⟨"fix", "b", "y", false, "", none⟩],
          opt := some ⟨"", "https://jira"⟩ } ["a", "b"]
        ≠ ChangelogList.FormatAsMarkdown
        { changelogs := [⟨"feat", "a", "x", false, "", none⟩, ⟨"fix", "b", "y", false, "", none⟩],
          opt := some ⟨"", "https://jira"⟩ } ["b", "a"] := by
  decide

/-- C10 (amended): when the entries that pass the scope filter all have the
same scope, `FormatAsMarkdown` returns the same result whatever order the
runtime visits the map in. -/
theorem C10_single_scope_deterministic (c : ChangelogList) (o1 o2 : List String)
    (h1 : RangeOrder c o1) (h2 : RangeOrder c o2)
    (hs : ∀ e1 ∈ c.included, ∀ e2 ∈ c.included, e1.Scope = e2.Scope) :
    c.FormatAsMarkdown o1 = c.FormatAsMarkdown o2 := by
  unfold ChangelogList.FormatAsMarkdown
  unfold RangeOrder at h1 h2
  cases hg : groupByScopeAndCommitType c with
  | error x => rfl
  | ok g =>
    rw [hg] at h1 h2
    simp only at h1 h2 ⊢
    obtain ⟨hn, hk⟩ := keysOk_groups c g hg
    have hall : ∀ a ∈ g.keys, ∀ b ∈ g.keys, a = b := by
      intro a ha b hb
      obtain ⟨e1, he1, rfl⟩ := hk a ha
      obtain ⟨e2, he2, rfl⟩ := hk b hb
      exact hs e1 he1 e2 he2
    rw [perm_eq_of_all_eq hn hall h1, perm_eq_of_all_eq hn hall h2]

/-- C10 (amended) at a list filtered to the scope `a`, with entries of the
scopes `a`, `b`, `a`. -/
theorem C10_single_scope_deterministic_witness :
    ChangelogList.FormatAsMarkdown
        { changelogs := [⟨"feat", "a", "x", false, "", none⟩, ⟨"fix", "b", "y", false, "", none⟩,
            ⟨"docs", "a", "z", false, "AB-1", none⟩],
          opt := some ⟨"a", "https://jira"⟩ } ["a"]
      = ChangelogList.FormatAsMarkdown
        { changelogs := [⟨"feat", "a", "x", false, "", none⟩, ⟨"fix", "b", "y", false, "", none⟩,
            ⟨"docs", "a", "z", false, "AB-1", none⟩],
          opt := some ⟨"a", "https://jira"⟩ } ["a"] :=
  C10_single_scope_deterministic
    { changelogs := [⟨"feat", "a", "x", false, "", none⟩, ⟨"fix", "b", "y", false, "", none⟩,
        ⟨"docs", "a", "z", false, "AB-1", none⟩],
      opt := some ⟨"a", "https://jira"⟩ } ["a"] ["a"] (by decide) (by decide) (by decide)

/-! ### The rows of a scope block -/

/-- C11: a bucket that is exhausted writes no cell at all. For a single `fix`
entry of scope `b` the only body row is `| y |`: one cell, the fix standing in
the first column, where three cells with the fix in the second are claimed. -/
theorem C11_exhausted_bucket_writes_nothing :
    ChangelogList.FormatAsMarkdown
        { changelogs := [⟨"fix", "b", "y", false, "", none⟩], opt := some ⟨"", "https://jira"⟩ }
        ["b"]
      = .ok ("### b\n\n| **New Features** | **Bug Fixes** | **Others** |\n| --- | --- | --- |\n"
          ++ "| y |\n" ++ "\n\n") ∧
      RangeOrder
        { changelogs := [⟨"fix", "b", "y", false, "", none⟩], opt := some ⟨"", "https://jira"⟩ }
        ["b"] := by
  decide

theorem concatAll_append (l1 l2 : List String) :
    concatAll (l1 ++ l2) = concatAll l1 ++ concatAll l2 := by
  induction l1 with
  | nil => simp [concatAll]
  | cons a l ih => simp [concatAll, ih, String.append_assoc]

theorem writeChangelogRow_eq (c : ChangelogList) (opt : ChangelogListOptions)
    (hopt : c.opt = some opt) (md : String) (e : Changelog) (prefixType : Bool) :
    writeChangelogRow c md e false prefixType = .ok (md ++ cellText opt.JiraURL prefixType e) := by
  unfold writeChangelogRow cellText ticketLink
  rw [hopt]
  by_cases ht : e.JiraTicket = "" <;> cases prefixType <;>
    simp [ht, String.append_assoc]

theorem writeCell_eq (c : ChangelogList) (opt : ChangelogListOptions)
    (hopt : c.opt = some opt) (md : String) (bucket : List Changelog) (row : Nat)
    (prefixType : Bool) :
    writeCell c md bucket row (decide (bucket.length ≤ row)) prefixType
      = .ok (md ++ cellAt opt.JiraURL prefixType bucket row) := by
  unfold writeCell cellAt
  by_cases h : bucket.length ≤ row
  · simp [h, List.getElem?_eq_none h]
  · have h2 : row < bucket.length := by omega
    simp only [h, decide_False, Bool.not_false, if_true, List.getElem?_eq_getElem h2]
    exact writeChangelogRow_eq c opt hopt md _ prefixType

theorem rowLoop_eq (c : ChangelogList) (opt : ChangelogListOptions) (hopt : c.opt = some opt)
    (F X O : List Changelog) (fuel row : Nat) (fd xd od : Bool) (md : String)
    (hf : fd = decide (F.length < row)) (hx : xd = decide (X.length < row))
    (ho : od = decide (O.length < row))
    (hrow : row ≤ max F.length (max X.length O.length))
    (hfuel : max F.length (max X.length O.length) - row < fuel) :
    rowLoop c F X O fuel row fd xd od md
      = .ok (md ++ concatAll ((List.range' row (max F.length (max X.length O.length) - row)).map
          (rowText opt.JiraURL F X O))) := by
  induction fuel generalizing row fd xd od md with
  | zero => omega
  | succ fuel ih =>
    unfold rowLoop
    have e1 : (if row = F.length then true else fd) = decide (F.length ≤ row) := by
      rw [hf]; by_cases h : row = F.length
      · simp [h]
      · simp only [h, if_false, decide_eq_decide]; omega
    have e2 : (if row = X.length then true else xd) = decide (X.length ≤ row) := by
      rw [hx]; by_cases h : row = X.length
      · simp [h]
      · simp only [h, if_false, decide_eq_decide]; omega
    have e3 : (if row = O.length then true else od) = decide (O.length ≤ row) := by
      rw [ho]; by_cases h : row = O.length
      · simp [h]
      · simp only [h, if_false, decide_eq_decide]; omega
    simp only [e1, e2, e3]
    by_cases hdone : max F.length (max X.length O.length) ≤ row
    · have h1 : F.length ≤ row := le_trans (le_max_left _ _) hdone
      have h2 : X.length ≤ row := le_trans (le_trans (le_max_left _ _) (le_max_right _ _)) hdone
      have h3 : O.length ≤ row := le_trans (le_trans (le_max_right _ _) (le_max_right _ _)) hdone
      have h4 : max F.length (max X.length O.length) - row = 0 := by omega
      simp [h1, h2, h3, h4, concatAll]
    · have hnot : ¬ (F.length ≤ row ∧ X.length ≤ row ∧ O.length ≤ row) := by
        intro ⟨a, b, d⟩
        exact hdone (max_le a (max_le b d))
      have hcond : (decide (F.length ≤ row) && decide (X.length ≤ row) && decide (O.length ≤ row))
          = false := by
        simp only [Bool.and_eq_false_iff, decide_eq_false_iff_not]
        by_contra hc
        push_neg at hc
        exact hnot ⟨hc.1.1, hc.1.2, hc.2⟩
      rw [if_neg (by rw [hcond]; simp)]
      rw [writeCell_eq c opt hopt]
      simp only
      rw [writeCell_eq c opt hopt]
      simp only
      rw [writeCell_eq c opt hopt]
      simp only
      rw [ih (row + 1) _ _ _ _ (by simp only [decide_eq_decide]; omega)
        (by simp only [decide_eq_decide]; omega) (by simp only [decide_eq_decide]; omega)
        (by omega) (by omega)]
      have hn : max F.length (max X.length O.length) - row
          = (max F.length (max X.length O.length) - (row + 1)) + 1 := by omega
      rw [hn, List.range'_succ]
      simp only [List.map_cons, concatAll, rowText, String.append_assoc]

theorem rowLoop_start (c : ChangelogList) (opt : ChangelogListOptions) (hopt : c.opt = some opt)
    (F X O : List Changelog) (md : String) :
    rowLoop c F X O (F.length + X.length + O.length + 1) 0 false false false md
      = .ok (md ++ concatAll (bodyRows opt.JiraURL F X O)) := by
  rw [rowLoop_eq c opt hopt F X O _ 0 false false false md (by simp) (by simp) (by simp)
    (Nat.zero_le _) (by
      have : max F.length (max X.length O.length) ≤ F.length + X.length + O.length := by
        apply max_le
        · omega
        · apply max_le <;> omega
      omega)]
  simp [bodyRows, List.range_eq_range']

theorem scopeLoop_eq (c : ChangelogList) (opt : ChangelogListOptions) (hopt : c.opt = some opt)
    (g : Groups) (order : List String) (md : String) :
    scopeLoop c g order md
      = .ok (md ++ concatAll (order.map (fun scope =>
          blockText opt.JiraURL scope (bucketOf g scope CommitTypeFeature)
            (bucketOf g scope CommitTypeFix) (bucketOf g scope CommitTypeOther)))) := by
  induction order generalizing md with
  | nil => simp [scopeLoop, concatAll]
  | cons scope rest ih =>
    unfold scopeLoop
    simp only
    rw [rowLoop_start c opt hopt]
    simp only
    rw [ih]
    simp only [List.map_cons, concatAll, blockText, bucketOf, String.append_assoc]
    rfl

/-! ### The buckets of the grouping map -/

theorem get?_set_self {ν : Type} (m : GoMap ν) (k : String) (v : ν) :
    (m.set k v).get? k = some v := by
  induction m with
  | nil => simp [GoMap.set, GoMap.get?]
  | cons p m ih =>
    obtain ⟨k1, v1⟩ := p
    by_cases h : k1 = k
    · simp [GoMap.set, GoMap.get?, h]
    · simp [GoMap.set, GoMap.get?, h, ih]

theorem get?_set_ne {ν : Type} (m : GoMap ν) (k k2 : String) (v : ν) (h : k ≠ k2) :
    (m.set k v).get? k2 = m.get? k2 := by
  induction m with
  | nil => simp [GoMap.set, GoMap.get?, h]
  | cons p m ih =>
    obtain ⟨k1, v1⟩ := p
    by_cases h1 : k1 = k
    · subst h1
      simp [GoMap.set, GoMap.get?, h]
    · by_cases h2 : k1 = k2
      · subst h2
        simp [GoMap.set, GoMap.get?, h1]
      · simp [GoMap.set, GoMap.get?, h1, h2, ih]

theorem get?_isSome_iff {ν : Type} (m : GoMap ν) (k : String) :
    (m.get? k).isSome = true ↔ k ∈ m.keys := by
  induction m with
  | nil => simp [GoMap.get?, GoMap.keys]
  | cons p m ih =>
    obtain ⟨k1, v1⟩ := p
    by_cases h : k1 = k
    · simp [GoMap.get?, GoMap.keys, h]
    · have h2 : ¬ k = k1 := fun e => h e.symm
      simp only [GoMap.keys] at ih
      simp [GoMap.get?, GoMap.keys, h, h2, ih]

theorem bucketOf_step (c : ChangelogList) (opt : ChangelogListOptions) (hopt : c.opt = some opt)
    (g : Groups) (e : Changelog) :
    ∃ g1, groupStep c g e = .ok g1 ∧ ∀ scope ty, bucketOf g1 scope ty
      = bucketOf g scope ty ++
        (([e].filter (fun e => !(opt.Scope != "" && e.Scope != opt.Scope))).filter
          (fun e => e.Scope == scope && reducedCommitType e.Type_ == ty)) := by
  unfold groupStep
  rw [hopt]
  simp only
  by_cases hf : opt.Scope ≠ "" ∧ e.Scope ≠ opt.Scope
  · rw [if_pos hf]
    refine ⟨g, rfl, ?_⟩
    intro scope ty
    have : (!(opt.Scope != "" && e.Scope != opt.Scope)) = false := by
      simp [hf.1, hf.2]
    simp [List.filter, this]
  · rw [if_neg hf]
    refine ⟨_, rfl, ?_⟩
    intro scope ty
    have hp : (!(opt.Scope != "" && e.Scope != opt.Scope)) = true := by
      simp only [Bool.not_eq_true', Bool.and_eq_false_iff, bne_eq_false_iff_eq]
      by_cases h1 : opt.Scope = ""
      · exact Or.inl h1
      · right
        by_contra h2
        exact hf ⟨h1, h2⟩
    have hinner : ((if (g.get? e.Scope).isNone = true then g.set e.Scope [] else g).get? e.Scope).getD []
        = (g.get? e.Scope).getD [] := by
      cases hg : g.get? e.Scope with
      | none => simp [get?_set_self]
      | some v => simp [hg]
    rw [hinner]
    by_cases hs : e.Scope = scope
    · subst hs
      by_cases ht : reducedCommitType e.Type_ = ty
      · subst ht
        simp [bucketOf, get?_set_self, List.filter, hp]
      · simp [bucketOf, get?_set_self, get?_set_ne _ _ _ _ ht, List.filter, hp, ht]
    · have hg2 : (if (g.get? e.Scope).isNone = true then g.set e.Scope [] else g).get? scope
          = g.get? scope := by
        split
        · exact get?_set_ne _ _ _ _ hs
        · rfl
      simp only [bucketOf, get?_set_ne _ _ _ _ hs]
      rw [hg2]
      simp [List.filter, hp, hs]

theorem bucketOf_loop (c : ChangelogList) (opt : ChangelogListOptions) (hopt : c.opt = some opt)
    (l : List Changelog) (g : Groups) :
    ∃ g1, groupLoop c g l = .ok g1 ∧ ∀ scope ty, bucketOf g1 scope ty
      = bucketOf g scope ty ++
        ((l.filter (fun e => !(opt.Scope != "" && e.Scope != opt.Scope))).filter
          (fun e => e.Scope == scope && reducedCommitType e.Type_ == ty)) := by
  induction l generalizing g with
  | nil => exact ⟨g, rfl, by simp⟩
  | cons e rest ih =>
    obtain ⟨g1, h1, hb1⟩ := bucketOf_step c opt hopt g e
    obtain ⟨g2, h2, hb2⟩ := ih g1
    refine ⟨g2, ?_, ?_⟩
    · simp only [groupLoop, h1]
      exact h2
    · intro scope ty
      rw [hb2, hb1]
      have : e :: rest = [e] ++ rest := rfl
      rw [this, List.filter_append, List.filter_append, List.append_assoc]

theorem groups_ok (c : ChangelogList) (opt : ChangelogListOptions) (hopt : c.opt = some opt) :
    ∃ g, groupByScopeAndCommitType c = .ok g ∧ ∀ scope ty, bucketOf g scope ty
      = c.included.filter (fun e => e.Scope == scope && reducedCommitType e.Type_ == ty) := by
  obtain ⟨g, h1, h2⟩ := bucketOf_loop c opt hopt c.changelogs []
  refine ⟨g, h1, ?_⟩
  intro scope ty
  rw [h2]
  simp [bucketOf, GoMap.get?, ChangelogList.included, hopt]

theorem reduced_feature (t : String) :
    (reducedCommitType t == CommitTypeFeature) = (t == "feature" || t == "feat") := by
  unfold reducedCommitType CommitTypeFeature CommitTypeFeat CommitTypeFix CommitTypeOther
  by_cases h1 : t = "feature"
  · simp [h1]
  · by_cases h2 : t = "feat"
    · simp [h2]
    · by_cases h3 : t = "fix"
      · subst h3; decide
      · simp [h1, h2, h3]

theorem reduced_fix (t : String) : (reducedCommitType t == CommitTypeFix) = (t == "fix") := by
  unfold reducedCommitType CommitTypeFeature CommitTypeFeat CommitTypeFix CommitTypeOther
  by_cases h1 : t = "feature"
  · subst h1; decide
  · by_cases h2 : t = "feat"
    · subst h2; decide
    · by_cases h3 : t = "fix"
      · simp [h3]
      · simp [h1, h2, h3]

theorem reduced_other (t : String) :
    (reducedCommitType t == CommitTypeOther)
      = !(t == "feature" || t == "feat" || t == "fix") := by
  unfold reducedCommitType CommitTypeFeature CommitTypeFeat CommitTypeFix CommitTypeOther
  by_cases h1 : t = "feature"
  · subst h1; decide
  · by_cases h2 : t = "feat"
    · subst h2; decide
    · by_cases h3 : t = "fix"
      · subst h3; decide
      · simp [h1, h2, h3]

/-- The report is the concatenation, in the order the scopes are visited, of
the blocks of the scopes, each built from the three buckets of its scope. -/
theorem format_eq (c : ChangelogList) (opt : ChangelogListOptions) (hopt : c.opt = some opt)
    (order : List String) :
    c.FormatAsMarkdown order
      = .ok (concatAll (order.map (fun scope =>
          blockText opt.JiraURL scope (featuresOf c scope) (fixesOf c scope)
            (othersOf c scope)))) := by
  obtain ⟨g, hg, hb⟩ := groups_ok c opt hopt
  unfold ChangelogList.FormatAsMarkdown
  rw [hg]
  simp only
  rw [scopeLoop_eq c opt hopt]
  simp only [hb, reduced_feature, reduced_fix, reduced_other, String.empty_append]
  rfl

theorem mem_keys_of_included (c : ChangelogList) (opt : ChangelogListOptions)
    (hopt : c.opt = some opt) (g : Groups) (hg : groupByScopeAndCommitType c = .ok g)
    (e : Changelog) (he : e ∈ c.included) : e.Scope ∈ g.keys := by
  obtain ⟨g1, hg1, hb⟩ := groups_ok c opt hopt
  rw [hg] at hg1
  injection hg1 with hg1
  subst hg1
  rw [← get?_isSome_iff]
  have hmem : e ∈ bucketOf g e.Scope (reducedCommitType e.Type_) := by
    rw [hb]
    simp [List.mem_filter, he]
  cases hget : g.get? e.Scope with
  | none =>
    exfalso
    simp [bucketOf, hget, GoMap.get?] at hmem
  | some v => rfl

theorem bodyRows_length (url : String) (F X O : List Changelog) :
    (bodyRows url F X O).length = max F.length (max X.length O.length) := by
  simp [bodyRows]

/-- C12: with non-nil options, the row loop run on the three buckets of a scope
with an included entry ends without panic, having written exactly
`max(f, x, o)` body rows; the block of the scope, whose rows these are, stands
once in the report, after its heading and the two header lines. -/
theorem C12_row_count (c : ChangelogList) (opt : ChangelogListOptions)
    (hopt : c.opt = some opt) (order : List String) (hord : RangeOrder c order)
    (scope : String) (hscope : ∃ e ∈ c.included, e.Scope = scope) :
    (∀ md : String,
        rowLoop c (featuresOf c scope) (fixesOf c scope) (othersOf c scope)
          ((featuresOf c scope).length + (fixesOf c scope).length + (othersOf c scope).length + 1)
          0 false false false md
        = .ok (md ++ concatAll
            (bodyRows opt.JiraURL (featuresOf c scope) (fixesOf c scope) (othersOf c scope)))) ∧
      (bodyRows opt.JiraURL (featuresOf c scope) (fixesOf c scope) (othersOf c scope)).length
        = max (featuresOf c scope).length
            (max (fixesOf c scope).length (othersOf c scope).length) ∧
      order.count scope = 1 ∧
      c.FormatAsMarkdown order
        = .ok (concatAll (order.map (fun s =>
            "### " ++ s ++ tableHeader
              ++ concatAll (bodyRows opt.JiraURL (featuresOf c s) (fixesOf c s) (othersOf c s))
              ++ "\n\n"))) := by
  refine ⟨fun md => rowLoop_start c opt hopt _ _ _ md, bodyRows_length _ _ _ _, ?_,
    format_eq c opt hopt order⟩
  obtain ⟨g, hg, -⟩ := groups_ok c opt hopt
  obtain ⟨hn, -⟩ := keysOk_groups c g hg
  obtain ⟨e, he, hes⟩ := hscope
  have hk : scope ∈ g.keys := hes ▸ mem_keys_of_included c opt hopt g hg e he
  unfold RangeOrder at hord
  rw [hg] at hord
  simp only at hord
  rw [hord.count_eq]
  exact List.count_eq_one_of_mem hn hk

/-- C12 at `sampleList`, whose scope `a` has two features, one fix and no
other entry: the block of `a` has two body rows. -/
theorem C12_row_count_witness :
    (bodyRows "https://jira" (featuresOf sampleList "a") (fixesOf sampleList "a")
        (othersOf sampleList "a")).length
      = max (featuresOf sampleList "a").length
          (max (fixesOf sampleList "a").length (othersOf sampleList "a").length) :=
  (C12_row_count sampleList ⟨"", "https://jira"⟩ rfl ["a", "b"] (by decide) "a"
    ⟨⟨"feat", "a", "x", false, "", none⟩, by decide, rfl⟩).2.1

theorem groupStep_filter (entries1 entries2 : List Changelog) (s url : String) (hs : s ≠ "")
    (g : Groups) (e : Changelog) :
    groupStep { changelogs := entries1, opt := some ⟨s, url⟩ } g e
      = if e.Scope = s then
          groupStep { changelogs := entries2, opt := some ⟨"", url⟩ } g e
        else .ok g := by
  unfold groupStep
  by_cases h : e.Scope = s
  · simp [h, hs]
  · simp [h, hs]

theorem groupLoop_filter (entries1 entries2 : List Changelog) (s url : String) (hs : s ≠ "")
    (l : List Changelog) (g : Groups) :
    groupLoop { changelogs := entries1, opt := some ⟨s, url⟩ } g l
      = groupLoop { changelogs := entries2, opt := some ⟨"", url⟩ } g
          (l.filter (fun e => e.Scope == s)) := by
  induction l generalizing g with
  | nil => rfl
  | cons e rest ih =>
    by_cases h : e.Scope = s
    · have hf : (e :: rest).filter (fun e => e.Scope == s)
          = e :: rest.filter (fun e => e.Scope == s) := by
        rw [List.filter_cons_of_pos (by simp [h])]
      rw [hf]
      simp only [groupLoop]
      rw [groupStep_filter entries1 entries2 s url hs, if_pos h]
      cases groupStep { changelogs := entries2, opt := some ⟨"", url⟩ } g e with
      | error x => rfl
      | ok g1 => exact ih g1
    · have hf : (e :: rest).filter (fun e => e.Scope == s)
          = rest.filter (fun e => e.Scope == s) := by
        rw [List.filter_cons_of_neg (by simp [h])]
      rw [hf]
      simp only [groupLoop]
      rw [groupStep_filter entries1 entries2 s url hs, if_neg h]
      exact ih g

theorem included_filter (entries : List Changelog) (s url : String) (hs : s ≠ "") :
    ChangelogList.included { changelogs := entries, opt := some ⟨s, url⟩ }
      = entries.filter (fun e => e.Scope == s) := by
  unfold ChangelogList.included
  simp only
  apply List.filter_congr
  intro e _
  have h1 : (s == "") = false := by simpa using hs
  by_cases h : e.Scope = s
  · simp [bne, h1, h]
  · have h2 : (e.Scope == s) = false := by simpa using h
    simp [bne, h1, h2]

theorem included_unfiltered (entries : List Changelog) (url : String) :
    ChangelogList.included { changelogs := entries, opt := some ⟨"", url⟩ } = entries := by
  unfold ChangelogList.included
  simp

/-- C13: with a non-empty scope filter `s` the report equals the report,
without filter and with the same Jira URL, of the entries whose scope is
exactly `s` (for every order of visit, and the two lists admit the same
orders); it is empty when no entry has scope `s`. -/
theorem C13_scope_filter (entries : List Changelog) (s url : String) (hs : s ≠ "")
    (order : List String) :
    (RangeOrder { changelogs := entries, opt := some ⟨s, url⟩ } order ↔
        RangeOrder { changelogs := entries.filter (fun e => e.Scope == s),
                     opt := some ⟨"", url⟩ } order) ∧
      ChangelogList.FormatAsMarkdown { changelogs := entries, opt := some ⟨s, url⟩ } order
        = ChangelogList.FormatAsMarkdown
            { changelogs := entries.filter (fun e => e.Scope == s), opt := some ⟨"", url⟩ }
            order ∧
      ((∀ e ∈ entries, e.Scope ≠ s) →
        RangeOrder { changelogs := entries, opt := some ⟨s, url⟩ } order →
        ChangelogList.FormatAsMarkdown { changelogs := entries, opt := some ⟨s, url⟩ } order
          = .ok "") := by
  have hgroups : groupByScopeAndCommitType { changelogs := entries, opt := some ⟨s, url⟩ }
      = groupByScopeAndCommitType
          { changelogs := entries.filter (fun e => e.Scope == s), opt := some ⟨"", url⟩ } := by
    unfold groupByScopeAndCommitType
    exact groupLoop_filter _ _ s url hs entries []
  refine ⟨?_, ?_, ?_⟩
  · unfold RangeOrder
    rw [hgroups]
  · unfold ChangelogList.FormatAsMarkdown
    rw [hgroups]
    cases hg : groupByScopeAndCommitType
        { changelogs := entries.filter (fun e => e.Scope == s), opt := some ⟨"", url⟩ } with
    | error x => rfl
    | ok g =>
      simp only
      rw [scopeLoop_eq _ ⟨s, url⟩ rfl, scopeLoop_eq _ ⟨"", url⟩ rfl]
  · intro hnone hord
    obtain ⟨g, hg, -⟩ := groups_ok { changelogs := entries, opt := some ⟨s, url⟩ } ⟨s, url⟩ rfl
    obtain ⟨-, hk⟩ := keysOk_groups _ g hg
    have hinc : ChangelogList.included { changelogs := entries, opt := some ⟨s, url⟩ } = [] := by
      rw [included_filter entries s url hs, List.filter_eq_nil_iff]
      intro e he
      simp [hnone e he]
    have hkeys : g.keys = [] := by
      apply List.eq_nil_iff_forall_not_mem.mpr
      intro k hkm
      obtain ⟨e, he, -⟩ := hk k hkm
      rw [hinc] at he
      exact absurd he (List.not_mem_nil _)
    unfold RangeOrder at hord
    rw [hg] at hord
    simp only at hord
    rw [hkeys] at hord
    rw [List.perm_nil.mp hord, format_eq _ ⟨s, url⟩ rfl]
    rfl

/-- C13 at the entries of `sampleList` filtered to the scope `b`. -/
theorem C13_scope_filter_witness :
    ChangelogList.FormatAsMarkdown
        { changelogs := sampleList.changelogs, opt := some ⟨"b", "https://jira"⟩ } ["b"]
      = ChangelogList.FormatAsMarkdown
          { changelogs := sampleList.changelogs.filter (fun e => e.Scope == "b"),
            opt := some ⟨"", "https://jira"⟩ } ["b"] :=
  (C13_scope_filter sampleList.changelogs "b" "https://jira" (by decide) ["b"]).2.1

theorem foldl_add (es : List Changelog) (c : ChangelogList) :
    (es.foldl ChangelogList.Add c).changelogs = c.changelogs ++ es ∧
      (es.foldl ChangelogList.Add c).opt = c.opt := by
  induction es generalizing c with
  | nil => simp
  | cons e rest ih =>
    obtain ⟨h1, h2⟩ := ih (c.Add e)
    simp only [List.foldl_cons]
    rw [h1, h2]
    simp [ChangelogList.Add]

theorem buckets_perm (c : ChangelogList) (scope : String) :
    (featuresOf c scope ++ (fixesOf c scope ++ othersOf c scope)).Perm
      (c.included.filter (fun e => e.Scope == scope)) := by
  unfold featuresOf fixesOf othersOf
  generalize c.included = l
  induction l with
  | nil => simp
  | cons e rest ih =>
    by_cases hs : e.Scope = scope
    · by_cases h1 : e.Type_ = "feature"
      · simp only [List.filter_cons, hs, h1, beq_self_eq_true, Bool.true_or, Bool.and_self,
          if_true]
        have e1 : ("feature" == "fix") = false := by decide
        simp only [e1, Bool.and_false, Bool.or_false, Bool.not_true, Bool.false_eq_true,
          if_false, List.cons_append]
        exact List.Perm.cons _ (by simpa [hs] using ih)
      · by_cases h2 : e.Type_ = "feat"
        · simp only [List.filter_cons, hs, h2, beq_self_eq_true, Bool.or_true, Bool.and_self,
            if_true]
          have e1 : ("feat" == "fix") = false := by decide
          simp only [e1, Bool.and_false, Bool.true_or, Bool.or_false, Bool.not_true,
            Bool.false_eq_true, if_false, List.cons_append]
          exact List.Perm.cons _ (by simpa [hs] using ih)
        · by_cases h3 : e.Type_ = "fix"
          · have e1 : ("fix" == "feature") = false := by decide
            have e2 : ("fix" == "feat") = false := by decide
            simp only [List.filter_cons, hs, h3, beq_self_eq_true, e1, e2, Bool.or_self,
              Bool.and_false, Bool.false_eq_true, if_false, Bool.and_self, if_true,
              Bool.or_true, Bool.not_true]
            exact (List.perm_middle).trans (List.Perm.cons _ (by simpa [hs] using ih))
          · have e1 : (e.Type_ == "feature") = false := by simpa using h1
            have e2 : (e.Type_ == "feat") = false := by simpa using h2
            have e3 : (e.Type_ == "fix") = false := by simpa using h3
            simp only [List.filter_cons, hs, beq_self_eq_true, e1, e2, e3, Bool.or_self,
              Bool.and_false, Bool.false_eq_true, if_false, Bool.not_false, Bool.and_self,
              if_true]
            rw [← List.append_assoc]
            exact (List.perm_middle).trans (List.Perm.cons _
              (by rw [List.append_assoc]; simpa [hs] using ih))
    · have e0 : (e.Scope == scope) = false := by simpa using hs
      simp only [List.filter_cons, e0, Bool.false_and, Bool.false_eq_true, if_false]
      exact ih

/-- C14: for entries added with `Add`, the list holds them in the order added,
and the report is, scope by scope, the table whose row `i` holds the `i`-th
entry of the features bucket, of the fixes bucket and of the others bucket;
these buckets are the entries of the scope that pass the filter with type
`feature`/`feat`, with type `fix`, and all the remaining ones, each in the
order added, and together they hold every such entry exactly once. -/
theorem C14_buckets_in_added_order (opt : ChangelogListOptions) (es : List Changelog)
    (order : List String) :
    (es.foldl ChangelogList.Add (NewChangelogList (some opt))).changelogs = es ∧
      (es.foldl ChangelogList.Add (NewChangelogList (some opt))).FormatAsMarkdown order
        = .ok (concatAll (order.map (fun scope =>
            "### " ++ scope ++ tableHeader
              ++ concatAll ((List.range (max
                  (featuresOf (es.foldl ChangelogList.Add (NewChangelogList (some opt))) scope).length
                  (max (fixesOf (es.foldl ChangelogList.Add (NewChangelogList (some opt)))
                      scope).length
                    (othersOf (es.foldl ChangelogList.Add (NewChangelogList (some opt)))
                      scope).length))).map
                (fun row =>
                  cellAt opt.JiraURL false
                      (featuresOf (es.foldl ChangelogList.Add (NewChangelogList (some opt))) scope)
                      row
                    ++ cellAt opt.JiraURL false
                      (fixesOf (es.foldl ChangelogList.Add (NewChangelogList (some opt))) scope) row
                    ++ cellAt opt.JiraURL true
                      (othersOf (es.foldl ChangelogList.Add (NewChangelogList (some opt))) scope)
                      row
                    ++ "|\n"))
              ++ "\n\n"))) ∧
      ∀ scope : String,
        featuresOf (es.foldl ChangelogList.Add (NewChangelogList (some opt))) scope
          = es.filter (fun e => !(opt.Scope != "" && e.Scope != opt.Scope) &&
              (e.Scope == scope && (e.Type_ == "feature" || e.Type_ == "feat"))) ∧
        fixesOf (es.foldl ChangelogList.Add (NewChangelogList (some opt))) scope
          = es.filter (fun e => !(opt.Scope != "" && e.Scope != opt.Scope) &&
              (e.Scope == scope && e.Type_ == "fix")) ∧
        othersOf (es.foldl ChangelogList.Add (NewChangelogList (some opt))) scope
          = es.filter (fun e => !(opt.Scope != "" && e.Scope != opt.Scope) &&
              (e.Scope == scope &&
                !(e.Type_ == "feature" || e.Type_ == "feat" || e.Type_ == "fix"))) ∧
        (featuresOf (es.foldl ChangelogList.Add (NewChangelogList (some opt))) scope
            ++ (fixesOf (es.foldl ChangelogList.Add (NewChangelogList (some opt))) scope
              ++ othersOf (es.foldl ChangelogList.Add (NewChangelogList (some opt))) scope)).Perm
          (es.filter (fun e => !(opt.Scope != "" && e.Scope != opt.Scope) &&
            e.Scope == scope)) := by
  obtain ⟨h1, h2⟩ := foldl_add es (NewChangelogList (some opt))
  have h1' : (es.foldl ChangelogList.Add (NewChangelogList (some opt))).changelogs = es := by
    rw [h1]; simp [NewChangelogList]
  have h2' : (es.foldl ChangelogList.Add (NewChangelogList (some opt))).opt = some opt := by
    rw [h2]; rfl
  have hinc : (es.foldl ChangelogList.Add (NewChangelogList (some opt))).included
      = es.filter (fun e => !(opt.Scope != "" && e.Scope != opt.Scope)) := by
    unfold ChangelogList.included
    rw [h2', h1']
  refine ⟨h1', ?_, ?_⟩
  · rw [format_eq _ opt h2']
    rfl
  · intro scope
    refine ⟨?_, ?_, ?_, ?_⟩
    · unfold featuresOf; rw [hinc, List.filter_filter]
      exact List.filter_congr (fun e _ => by rw [Bool.and_comm])
    · unfold fixesOf; rw [hinc, List.filter_filter]
      exact List.filter_congr (fun e _ => by rw [Bool.and_comm])
    · unfold othersOf; rw [hinc, List.filter_filter]
      exact List.filter_congr (fun e _ => by rw [Bool.and_comm])
    · have hp := buckets_perm (es.foldl ChangelogList.Add (NewChangelogList (some opt))) scope
      rw [hinc, List.filter_filter] at hp
      have e1 : es.filter (fun e => !(opt.Scope != "" && e.Scope != opt.Scope) && e.Scope == scope)
          = es.filter (fun a => (a.Scope == scope) && !(opt.Scope != "" && a.Scope != opt.Scope)) :=
        List.filter_congr (fun e _ => by rw [Bool.and_comm])
      rw [e1]
      exact hp

/-- The text of a cell by bucket: `writeChangelogRow` writes, after `|`, the
bare message between two spaces for an entry of the features or fixes bucket
and `type: message ` for an entry of the others bucket, followed by the link
`([T](JiraURL/browse/T)) ` exactly when the ticket `T` of the entry is
non-empty; one pass of the row loop over three buckets of one entry each
writes the first two cells without and the third with the type. -/
theorem cell_content_by_bucket (c : ChangelogList) (opt : ChangelogListOptions)
    (hopt : c.opt = some opt) (md : String) (e : Changelog) :
    writeChangelogRow c md e false false
        = .ok (md ++ ("|" ++ ((" " ++ e.Message ++ " ") ++ ticketLink opt.JiraURL e))) ∧
      writeChangelogRow c md e false true
        = .ok (md ++ ("|" ++ ((e.Type_ ++ ": " ++ e.Message ++ " ")
            ++ ticketLink opt.JiraURL e))) ∧
      (e.JiraTicket ≠ "" → ticketLink opt.JiraURL e
        = "([" ++ e.JiraTicket ++ "](" ++ opt.JiraURL ++ "/browse/" ++ e.JiraTicket ++ ")) ") ∧
      (e.JiraTicket = "" → ticketLink opt.JiraURL e = "") ∧
      ∀ e1 e2 e3 : Changelog,
        rowLoop c [e1] [e2] [e3] 4 0 false false false md
          = .ok (md ++ ((("|" ++ ((" " ++ e1.Message ++ " ") ++ ticketLink opt.JiraURL e1))
              ++ ("|" ++ ((" " ++ e2.Message ++ " ") ++ ticketLink opt.JiraURL e2))
              ++ ("|" ++ ((e3.Type_ ++ ": " ++ e3.Message ++ " ") ++ ticketLink opt.JiraURL e3))
              ++ "|\n"))) := by
  refine ⟨writeChangelogRow_eq c opt hopt md e false, writeChangelogRow_eq c opt hopt md e true,
    ?_, ?_, ?_⟩
  · intro h
    unfold ticketLink
    rw [if_pos h]
  · intro h
    unfold ticketLink
    rw [if_neg (by simp [h])]
  · intro e1 e2 e3
    have h := rowLoop_start c opt hopt [e1] [e2] [e3] md
    have e : concatAll (bodyRows opt.JiraURL [e1] [e2] [e3])
        = (("|" ++ ((" " ++ e1.Message ++ " ") ++ ticketLink opt.JiraURL e1))
              ++ ("|" ++ ((" " ++ e2.Message ++ " ") ++ ticketLink opt.JiraURL e2))
              ++ ("|" ++ ((e3.Type_ ++ ": " ++ e3.Message ++ " ") ++ ticketLink opt.JiraURL e3))
              ++ "|\n") := String.append_empty _
    rw [e] at h
    exact h

/-- C15: an entry of the others bucket is written with its type prefix into
the first column when the features and fixes buckets of its scope are
exhausted, since an exhausted bucket writes no cell: for a single `docs` entry
of scope `b` the only body row is `|docs: w |`, so the cell of the New
Features column is not a bare message. -/
theorem C15_prefixed_cell_in_first_column :
    ChangelogList.FormatAsMarkdown
        { changelogs := [⟨"docs", "b", "w", false, "", none⟩], opt := some ⟨"", "https://jira"⟩ }
        ["b"]
      = .ok ("### b\n\n| **New Features** | **Bug Fixes** | **Others** |\n| --- | --- | --- |\n"
          ++ "|docs: w |\n" ++ "\n\n") ∧
      RangeOrder
        { changelogs := [⟨"docs", "b", "w", false, "", none⟩], opt := some ⟨"", "https://jira"⟩ }
        ["b"] := by
  decide

/-! ### Line feeds -/

theorem scanTicketBody_noLF {t : List Char} {p : List Char × List Char}
    (h : scanTicketBody t = some p) : '\n' ∉ p.1 := by
  unfold scanTicketBody at h
  rcases t with _ | ⟨a, _ | ⟨b, u⟩⟩
  · simp at h
  · simp at h
  · simp only at h
    split at h
    · rename_i hab
      rcases hd : u.dropWhile upperAZ with _ | ⟨x, _ | ⟨d, v⟩⟩
      · rw [hd] at h; simp at h
      · rw [hd] at h; simp at h
      · rw [hd] at h
        simp only at h
        split at h
        · rename_i hx
          rcases hv2 : v.dropWhile digit09 with _ | ⟨e, r⟩
          · rw [hv2] at h; simp at h
          · rw [hv2] at h
            simp only at h
            split at h
            · simp only [Option.some.injEq] at h
              subst h
              simp only [Bool.and_eq_true, decide_eq_true_eq] at hx hab
              intro hmem
              simp only [List.mem_cons, List.mem_append, List.mem_singleton] at hmem
              rcases hmem with h1 | h1 | h1 | h1 | h1 | h1 | h1
              · rw [← h1] at hab; exact absurd hab.1 (by decide)
              · rw [← h1] at hab; exact absurd hab.2 (by decide)
              · exact absurd (List.mem_takeWhile_imp h1) (by decide)
              · exact absurd h1 (by decide)
              · rw [← h1] at hx; exact absurd hx.2 (by decide)
              · exact absurd (List.mem_takeWhile_imp h1) (by decide)
              · exact absurd h1 (by decide)
            · simp at h
        · simp at h
    · simp at h

theorem lf_scanOne (ch : Char) (hch : ch ≠ '\n') (s : List Char) (h : '\n' ∈ s) :
    '\n' ∈ (scanOne ch s).2 := by
  cases s with
  | nil => simp at h
  | cons a t =>
    by_cases ha : a = ch
    · subst ha
      simp only [scanOne, if_true]
      rcases List.mem_cons.mp h with h1 | h1
      · exact absurd h1.symm hch
      · exact h1
    · simp only [scanOne, ha, if_false]
      exact h

theorem lf_scanScope (s : List Char) (h : '\n' ∈ s) : '\n' ∈ (scanScope s).2 := by
  cases s with
  | nil => simp at h
  | cons a t =>
    by_cases ha : a = '('
    · subst ha
      have ht : '\n' ∈ t := by
        rcases List.mem_cons.mp h with h1 | h1
        · exact absurd h1 (by decide)
        · exact h1
      simp only [scanScope, if_true]
      have hsplit := List.takeWhile_append_dropWhile scopeChar t
      cases hd : t.dropWhile scopeChar with
      | nil => exact ht
      | cons b r =>
        by_cases hb : b = ')'
        · subst hb
          simp only [if_true]
          rw [hd] at hsplit
          rw [← hsplit] at ht
          rcases List.mem_append.mp ht with h1 | h1
          · exact absurd (List.mem_takeWhile_imp h1) (by decide)
          · rcases List.mem_cons.mp h1 with h2 | h2
            · exact absurd h2 (by decide)
            · exact h2
        · simp only [hb, if_false]
          exact ht
    · simp only [scanScope, ha, if_false]
      exact h

theorem lf_dropWhile_blank (s : List Char) (h : '\n' ∈ s) : '\n' ∈ s.dropWhile blank := by
  rw [← List.takeWhile_append_dropWhile blank s] at h
  rcases List.mem_append.mp h with h1 | h1
  · exact absurd (List.mem_takeWhile_imp h1) (by decide)
  · exact h1

theorem lf_scanTicket (s : List Char) (h : '\n' ∈ s) : '\n' ∈ (scanTicket s).2 := by
  cases s with
  | nil => simp at h
  | cons a t =>
    by_cases ha : a = '['
    · subst ha
      have ht : '\n' ∈ t := by
        rcases List.mem_cons.mp h with h1 | h1
        · exact absurd h1 (by decide)
        · exact h1
      simp only [scanTicket, if_true]
      cases hb : scanTicketBody t with
      | none => exact h
      | some p =>
        simp only
        rw [scanTicketBody_eq hb] at ht
        rcases List.mem_append.mp ht with h1 | h1
        · exact absurd h1 (scanTicketBody_noLF hb)
        · exact h1
    · simp only [scanTicket, ha, if_false]
      exact h

theorem typeWords_noLF : ∀ w ∈ typeWords, '\n' ∉ w.data := by decide

theorem detMatch_lf {s : List Char} {r : Caps} (h : detMatch s = some r) (hlf : '\n' ∈ s) :
    r.message = [] := by
  unfold detMatch at h
  cases hw : scanWords typeWords s with
  | none => rw [hw] at h; simp at h
  | some p =>
    obtain ⟨ty, r1⟩ := p
    rw [hw] at h
    simp only [Option.some.injEq] at h
    obtain ⟨e, w, hwm, hwd⟩ := scanWords_eq hw
    simp only at e hwd
    have h1 : '\n' ∈ r1 := by
      rw [e] at hlf
      rcases List.mem_append.mp hlf with h0 | h0
      · rw [hwd] at h0; exact absurd h0 (typeWords_noLF w hwm)
      · exact h0
    have h2 := lf_scanScope r1 h1
    have h3 := lf_scanOne '!' (by decide) _ h2
    have h4 := lf_scanOne ':' (by decide) _ h3
    have h5 := lf_dropWhile_blank _ h4
    have h6 := lf_scanTicket _ h5
    have h7 := lf_dropWhile_blank _ h6
    rw [← h]
    simp only
    unfold scanMessage
    rw [if_neg]
    intro hc
    exact absurd (List.all_eq_true.mp hc.2 _ h7) (by decide)

/-- C19: a subject whose trimmed form contains a line feed anywhere is rejected. -/
theorem C19_line_feed_rejected (s : String) (h : '\n' ∈ (TrimSpace s).data) :
    ChangelogFromCommitMessage s = none := by
  apply changelog_none_of_message_nil
  intro r hr
  exact detMatch_lf hr h

/-- C19 at a subject of two lines. -/
theorem C19_line_feed_rejected_witness :
    ChangelogFromCommitMessage "feat: first line\nsecond line" = none :=
  C19_line_feed_rejected "feat: first line\nsecond line" (by decide)

/-! ### Tag resolution -/

theorem tagStep_ok (repo : Repository) (st : Option Commit × String) (t : Reference)
    (c : Commit) (h : resolveTag repo t = some c) :
    tagStep repo st t = .ok
      (match st with
       | (none, _) => (some c, t.Name)
       | (some cur, name) => if c.When > cur.When then (some c, t.Name) else (some cur, name)) := by
  unfold resolveTag at h
  unfold tagStep
  cases hr : repo.ResolveRevision t.Name with
  | none => rw [hr] at h; simp at h
  | some hash =>
    rw [hr] at h
    simp only [Option.bind] at h
    simp only [hr, h]
    obtain ⟨o, name⟩ := st
    cases o with
    | none => simp
    | some cur =>
      simp only
      split <;> rfl

theorem tagStep_error (repo : Repository) (st : Option Commit × String) (t : Reference)
    (h : resolveTag repo t = none) : ∃ e, tagStep repo st t = .error e := by
  unfold resolveTag at h
  unfold tagStep
  cases hr : repo.ResolveRevision t.Name with
  | none => simp only [hr]; exact ⟨_, rfl⟩
  | some hash =>
    rw [hr] at h
    simp only [Option.bind] at h
    simp only [hr, h]
    exact ⟨_, rfl⟩

theorem tagLoop_spec (repo : Repository) (cm : Reference → Commit) (l : List Reference)
    (hres : ∀ t ∈ l, resolveTag repo t = some (cm t)) (cur : Commit) (name : String) :
    (tagLoop repo (some cur, name) l = .ok (some cur, name) ∧
        ∀ u ∈ l, (cm u).When ≤ cur.When) ∨
      ∃ pre t post, l = pre ++ t :: post ∧
        tagLoop repo (some cur, name) l = .ok (some (cm t), t.Name) ∧
        cur.When < (cm t).When ∧ (∀ u ∈ pre, (cm u).When < (cm t).When) ∧
        ∀ u ∈ post, (cm u).When ≤ (cm t).When := by
  induction l generalizing cur name with
  | nil => exact Or.inl ⟨rfl, by simp⟩
  | cons t rest ih =>
    have ht := hres t (List.mem_cons_self _ _)
    have hrest : ∀ u ∈ rest, resolveTag repo u = some (cm u) :=
      fun u hu => hres u (List.mem_cons_of_mem _ hu)
    by_cases hgt : (cm t).When > cur.When
    · have hstep : tagLoop repo (some cur, name) (t :: rest)
          = tagLoop repo (some (cm t), t.Name) rest := by
        simp only [tagLoop, tagStep_ok repo _ t (cm t) ht, hgt, if_true]
      rcases ih hrest (cm t) t.Name with ⟨h1, h2⟩ | ⟨pre, t2, post, h1, h2, h3, h4, h5⟩
      · exact Or.inr ⟨[], t, rest, rfl, by rw [hstep, h1], hgt, by simp, h2⟩
      · refine Or.inr ⟨t :: pre, t2, post, by rw [h1]; rfl, by rw [hstep, h2],
          lt_trans hgt h3, ?_, h5⟩
        intro u hu
        rcases List.mem_cons.mp hu with h6 | h6
        · rw [h6]; exact h3
        · exact h4 u h6
    · have hstep : tagLoop repo (some cur, name) (t :: rest)
          = tagLoop repo (some cur, name) rest := by
        simp only [tagLoop, tagStep_ok repo _ t (cm t) ht, hgt, if_false]
      have hle : (cm t).When ≤ cur.When := not_lt.mp hgt
      rcases ih hrest cur name with ⟨h1, h2⟩ | ⟨pre, t2, post, h1, h2, h3, h4, h5⟩
      · refine Or.inl ⟨by rw [hstep, h1], ?_⟩
        intro u hu
        rcases List.mem_cons.mp hu with h6 | h6
        · rw [h6]; exact hle
        · exact h2 u h6
      · refine Or.inr ⟨t :: pre, t2, post, by rw [h1]; rfl, by rw [hstep, h2], h3, ?_, h5⟩
        intro u hu
        rcases List.mem_cons.mp hu with h6 | h6
        · rw [h6]; exact lt_of_le_of_lt hle h3
        · exact h4 u h6

theorem tagLoop_first_max (repo : Repository) (cm : Reference → Commit) (t0 : Reference)
    (rest : List Reference) (hres : ∀ t ∈ t0 :: rest, resolveTag repo t = some (cm t)) :
    ∃ pre t post, t0 :: rest = pre ++ t :: post ∧
      tagLoop repo (none, "") (t0 :: rest) = .ok (some (cm t), t.Name) ∧
      (∀ u ∈ pre, (cm u).When < (cm t).When) ∧ ∀ u ∈ post, (cm u).When ≤ (cm t).When := by
  have h0 := hres t0 (List.mem_cons_self _ _)
  have hstep : tagLoop repo (none, "") (t0 :: rest)
      = tagLoop repo (some (cm t0), t0.Name) rest := by
    simp only [tagLoop, tagStep_ok repo _ t0 (cm t0) h0]
  rcases tagLoop_spec repo cm rest (fun u hu => hres u (List.mem_cons_of_mem _ hu))
      (cm t0) t0.Name with ⟨h1, h2⟩ | ⟨pre, t2, post, h1, h2, h3, h4, h5⟩
  · exact ⟨[], t0, rest, rfl, by rw [hstep, h1], by simp, h2⟩
  · refine ⟨t0 :: pre, t2, post, by rw [h1]; rfl, by rw [hstep, h2], ?_, h5⟩
    intro u hu
    rcases List.mem_cons.mp hu with h6 | h6
    · rw [h6]; exact h3
    · exact h4 u h6

/-- C16: with no tag, `getLatestTag` returns no error and leaves `latestTag`
empty and `latestTagCommit` absent; with tags that all resolve, it returns no
error and selects one tag of the list, whose time is strictly greater than
that of every tag before it and at least that of every tag after it (the
first tag among those of greatest time). -/
theorem C16_latest_tag (g : GitApp) (tags : List Reference) (cm : Reference → Commit)
    (htags : g.repository.Tags = some tags)
    (hres : ∀ t ∈ tags, resolveTag g.repository t = some (cm t)) :
    (getLatestTag g).2 = none ∧
      (tags = [] → (getLatestTag g).1.latestTag = "" ∧ (getLatestTag g).1.latestTagCommit = none) ∧
      (tags ≠ [] → ∃ pre t post, tags = pre ++ t :: post ∧
        (getLatestTag g).1.latestTag = t.Name ∧
        (getLatestTag g).1.latestTagCommit = some (cm t) ∧
        (∀ u ∈ pre, (cm u).When < (cm t).When) ∧
        ∀ u ∈ post, (cm u).When ≤ (cm t).When) := by
  cases tags with
  | nil =>
    have e : getLatestTag g = ({ g with latestTag := "", latestTagCommit := none }, none) := by
      unfold getLatestTag
      rw [htags]
      rfl
    rw [e]
    exact ⟨rfl, fun _ => ⟨rfl, rfl⟩, fun h => absurd rfl h⟩
  | cons t0 rest =>
    obtain ⟨pre, t, post, h1, h2, h3, h4⟩ := tagLoop_first_max g.repository cm t0 rest hres
    have e : getLatestTag g
        = ({ g with latestTag := t.Name, latestTagCommit := some (cm t) }, none) := by
      unfold getLatestTag
      rw [htags]
      simp only [h2]
    rw [e]
    exact ⟨rfl, fun h => absurd h (by simp), fun _ => ⟨pre, t, post, h1, rfl, rfl, h3, h4⟩⟩

theorem tagLoop_error (repo : Repository) (l : List Reference)
    (h : ∃ t ∈ l, resolveTag repo t = none) (st : Option Commit × String) :
    ∃ e, tagLoop repo st l = .error e := by
  induction l generalizing st with
  | nil => obtain ⟨t, ht, -⟩ := h; exact absurd ht (List.not_mem_nil _)
  | cons t rest ih =>
    cases hstep : tagStep repo st t with
    | error e => exact ⟨e, by simp only [tagLoop, hstep]⟩
    | ok st1 =>
      obtain ⟨u, hu, hfail⟩ := h
      rcases List.mem_cons.mp hu with h1 | h1
      · subst h1
        obtain ⟨e, he⟩ := tagStep_error repo st u hfail
        rw [he] at hstep
        exact absurd hstep (by simp)
      · obtain ⟨e, he⟩ := ih ⟨u, h1, hfail⟩ st1
        exact ⟨e, by simp only [tagLoop, hstep]; exact he⟩

/-- C17: when some tag of the list does not resolve to a commit,
`getLatestTag` returns an error and leaves the `GitApp`, with its fields
`latestTag` and `latestTagCommit`, as it was. -/
theorem C17_unresolved_tag_aborts (g : GitApp) (tags : List Reference)
    (htags : g.repository.Tags = some tags)
    (hfail : ∃ t ∈ tags, resolveTag g.repository t = none) :
    (∃ e, (getLatestTag g).2 = some e) ∧
      (getLatestTag g).1.latestTag = g.latestTag ∧
      (getLatestTag g).1.latestTagCommit = g.latestTagCommit := by
  obtain ⟨e, he⟩ := tagLoop_error g.repository tags hfail (none, "")
  have e1 : getLatestTag g = (g, some e) := by
    unfold getLatestTag
    rw [htags]
    simp only [he]
  rw [e1]
  exact ⟨⟨e, rfl⟩, rfl, rfl⟩

/-- C16 at three tags of times 10, 20, 20: the second tag is selected. -/
theorem C16_latest_tag_witness :
    ∃ pre t post, sampleTags = pre ++ t :: post ∧
      (getLatestTag (appWithTags sampleTags)).1.latestTag = t.Name ∧
      (getLatestTag (appWithTags sampleTags)).1.latestTagCommit
        = some ((resolveTag (repoWithTags sampleTags) t).getD ⟨"", 0, none⟩) ∧
      (∀ u ∈ pre, ((resolveTag (repoWithTags sampleTags) u).getD ⟨"", 0, none⟩).When
        < ((resolveTag (repoWithTags sampleTags) t).getD ⟨"", 0, none⟩).When) ∧
      ∀ u ∈ post, ((resolveTag (repoWithTags sampleTags) u).getD ⟨"", 0, none⟩).When
        ≤ ((resolveTag (repoWithTags sampleTags) t).getD ⟨"", 0, none⟩).When :=
  (C16_latest_tag (appWithTags sampleTags) sampleTags
    (fun t => (resolveTag (repoWithTags sampleTags) t).getD ⟨"", 0, none⟩) rfl
    (by decide)).2.2 (by decide)

/-- C17 at the tags `v0` and `bad`, the second of which does not resolve. -/
theorem C17_unresolved_tag_aborts_witness :
    (∃ e, (getLatestTag (appWithTags
        [⟨"refs/tags/v0", "h0"⟩, ⟨"refs/tags/bad", "hx"⟩])).2 = some e) ∧
      (getLatestTag (appWithTags [⟨"refs/tags/v0", "h0"⟩, ⟨"refs/tags/bad", "hx"⟩])).1.latestTag
        = "" ∧
      (getLatestTag (appWithTags
        [⟨"refs/tags/v0", "h0"⟩, ⟨"refs/tags/bad", "hx"⟩])).1.latestTagCommit = none :=
  C17_unresolved_tag_aborts (appWithTags [⟨"refs/tags/v0", "h0"⟩, ⟨"refs/tags/bad", "hx"⟩])
    [⟨"refs/tags/v0", "h0"⟩, ⟨"refs/tags/bad", "hx"⟩] rfl
    ⟨⟨"refs/tags/bad", "hx"⟩, by decide, by decide⟩

/-! ### The schema script -/

theorem writeSchemaChanges_eq (env : Env) (repoPath : String) (content : String → String)
    (patch : List FilePatch)
    (hread : ∀ fp ∈ patch, ∀ path, fp.From = some path → HasSuffix path ".sql" = true →
      env.Open (env.Join repoPath path) = some (content path))
    (buffer : String) :
    writeSchemaChanges env repoPath (collectSchemaChanges patch) buffer
      = .ok (buffer ++ concatAll (patch.filterMap (fun fp =>
          match fp.From with
          | some path =>
            if HasSuffix path ".sql" then some ("-- " ++ path ++ "\n" ++ content path ++ "\n\n")
            else none
          | none => none))) := by
  induction patch generalizing buffer with
  | nil => simp [collectSchemaChanges, writeSchemaChanges, concatAll]
  | cons fp rest ih =>
    have hrest : ∀ fp ∈ rest, ∀ path, fp.From = some path → HasSuffix path ".sql" = true →
        env.Open (env.Join repoPath path) = some (content path) :=
      fun x hx => hread x (List.mem_cons_of_mem _ hx)
    cases hf : fp.From with
    | none =>
      simp only [collectSchemaChanges, hf, List.filterMap_cons]
      exact ih hrest buffer
    | some path =>
      by_cases hs : HasSuffix path ".sql" = true
      · have ho := hread fp (List.mem_cons_self _ _) path hf hs
        simp only [collectSchemaChanges, hf, hs, if_true, writeSchemaChanges, ho,
          List.filterMap_cons, concatAll]
        rw [ih hrest]
        simp only [String.append_assoc]
      · simp only [collectSchemaChanges, hf, hs, if_false, List.filterMap_cons]
        exact ih hrest buffer

/-- C18: when the head commit, the two trees, the diff and the patch are
obtained and every recorded file can be read, `GenerateSchemaScript` returns
the concatenation, in the order of the diff, of `-- path`, a line feed, the
content of the file at that path and two line feeds, for exactly the file
patches whose `from` file is present with a path ending in `.sql`. -/
theorem C18_schema_script (env : Env) (g : GitApp) (head : Reference)
    (headCommit latestTagCommit : Commit) (headTree tree changes : Nat)
    (patch : List FilePatch) (content : String → String)
    (hhead : g.head = some head)
    (hcommit : g.repository.CommitObject head.Hash = some headCommit)
    (hheadTree : headCommit.Tree = some headTree)
    (hlatest : g.latestTagCommit = some latestTagCommit)
    (htree : latestTagCommit.Tree = some tree)
    (hdiff : g.repository.Diff headTree tree = some changes)
    (hpatch : g.repository.Patch changes = some patch)
    (hread : ∀ fp ∈ patch, ∀ path ∈ fp.From, ".sql".data <:+ path.data →
      env.Open (env.Join g.repoPath path) = some (content path)) :
    GenerateSchemaScript env g
      = .ok (concatAll (patch.filterMap (fun fp =>
          match fp.From with
          | some path =>
            if ".sql".data <:+ path.data then
              some ("-- " ++ path ++ "\n" ++ content path ++ "\n\n")
            else none
          | none => none))) := by
  unfold GenerateSchemaScript
  simp only [hhead, hcommit, hheadTree, hlatest, htree, hdiff, hpatch]
  rw [writeSchemaChanges_eq env g.repoPath content patch
    (fun fp hfp path hf hs => hread fp hfp path hf (by simpa [HasSuffix] using hs))]
  simp only [String.empty_append, HasSuffix, List.isSuffixOf_iff_suffix]

/-- C18 at the diff of `repoWithTags`: of the three file patches only the
first, whose `from` file is a `.sql` file, contributes; the patch of
`db/new.sql`, which has no `from` file, and the patch of `main.go` do not. -/
theorem C18_schema_script_witness :
    GenerateSchemaScript sampleEnv (getLatestTag (appWithTags sampleTags)).1
      = .ok "-- db/a.sql\nCREATE TABLE a;\n\n" :=
  C18_schema_script sampleEnv (getLatestTag (appWithTags sampleTags)).1
    ⟨"refs/heads/master", "h9"⟩ ⟨"h9", 30, some 9⟩ ⟨"h1", 20, some 1⟩ 9 1 10
    [⟨some "db/a.sql", some "db/a.sql"⟩, ⟨none, some "db/new.sql"⟩,
      ⟨some "main.go", some "main.go"⟩]
    (fun _ => "CREATE TABLE a;") rfl rfl rfl (by decide) rfl rfl rfl (by decide)

/-- C20: on a repository without tags `getLatestTag` returns no error and
leaves `latestTagCommit` absent; on that state `GetLatestChangeLogs` and
`GenerateSchemaScript` panic on the nil pointer, where a result or an error is
claimed. -/
theorem C20_no_tags_panics :
    (getLatestTag (appWithTags [])).2 = none ∧
      (getLatestTag (appWithTags [])).1.latestTag = "" ∧
      (getLatestTag (appWithTags [])).1.latestTagCommit = none ∧
      GetLatestChangeLogs sampleEnv (getLatestTag (appWithTags [])).1 = .panic ∧
      GenerateSchemaScript sampleEnv (getLatestTag (appWithTags [])).1 = .panic := by
  decide

end Sdlc
